import Mathlib

/-!
Shallow embedding of the reader concurrency semaphore from
src/reader_concurrency_semaphore.cc.

Machine integers are modelled as Int (for the signed `count : int` and
`memory : ssize_t` fields) and Nat (for the unsigned counters), with the
C++ signed/unsigned conversions made explicit via reduction modulo 2^64
where the code compares an ssize_t against a uint64_t limit.

Stateful code is modelled by explicit state passing over a `Sem` record.
A failed C++ `assert` (or `on_internal_error` abort) is modelled as the
bottom result `RRes.halt`; a thrown `std::bad_alloc` (the OutOfMemory
error of `consume`) is modelled as `RRes.oom` carrying the state at the
throw point.  `maybe_admit_waiters` is reentrant in the source (it can be
re-entered through `on_permit_blocked` during an admission), so it and
everything that can call it take an explicit recursion-depth bound
(`fuel`); exhausting the bound is modelled as `RRes.halt`.
-/

/-- Unsigned-64 view of a signed 64-bit value, as produced by C++ usual
arithmetic conversions when an ssize_t meets a uint64_t in a comparison. -/
def asUInt64 (i : Int) : Nat := (i % (2:Int) ^ 64).toNat

def uint32Max : Nat := 2 ^ 32 - 1

def uint64Max : Nat := 2 ^ 64 - 1

def intMax : Int := 2 ^ 31 - 1

def ssizeMax : Int := 2 ^ 63 - 1

/-- reader_resources: a (count, memory) pair; both components signed. -/
structure Resources where
  count : Int
  memory : Int
deriving Repr, DecidableEq

instance : Add Resources := ⟨fun a b => ⟨a.count + b.count, a.memory + b.memory⟩⟩

instance : Sub Resources := ⟨fun a b => ⟨a.count - b.count, a.memory - b.memory⟩⟩

/-- reader_resources::non_zero(): any component nonzero. -/
def Resources.nonZero (r : Resources) : Bool := r.count != 0 || r.memory != 0

/-- reader_permit::state. -/
inductive PermitState where
  | waiting_for_admission
  | waiting_for_memory
  | active_unused
  | active_used
  | active_blocked
  | inactive
  | evicted
deriving Repr, DecidableEq

/-- The mutable fields of reader_permit::impl that the verified claims
depend on (schema, op name, timeout, max result size and the sstable-read
counters are diagnostic-only and omitted).  `pid` stands in for the
object identity (the address of the impl object in the source). -/
structure PermitImpl where
  pid : Nat
  baseResources : Resources
  baseResourcesConsumed : Bool
  resources : Resources
  state : PermitState
  usedBranches : Nat
  markedAsUsed : Bool
  blockedBranches : Nat
  markedAsBlocked : Bool
  requestedMemory : Nat
  oomKills : Nat
deriving Repr, DecidableEq

/-- A flat_mutation_reader_v2, abstracted to an identity plus the id of
its permit (the only parts of a reader the semaphore core inspects). -/
structure Reader where
  rid : Nat
  pid : Nat
deriving Repr, DecidableEq

/-- An entry of the semaphore's inactive-reads list. -/
structure InactiveRead where
  irId : Nat
  reader : Reader
deriving Repr, DecidableEq

/-- inactive_read_handle: back-link to the owning semaphore plus the
identity of the inactive_read node; an empty handle is `none` at use
sites. -/
structure IRHandle where
  semId : Nat
  irId : Nat
deriving Repr, DecidableEq

/-- A wait-list / ready-list entry: the permit it carries and whether a
continuation function (`func`) is attached. -/
structure WaitEntry where
  pid : Nat
  hasFunc : Bool
deriving Repr, DecidableEq

/-- The counters of reader_concurrency_semaphore::stats used by the
claims. -/
structure Stats where
  usedPermits : Nat
  blockedPermits : Nat
  inactiveReads : Nat
  permitBasedEvictions : Nat
  timeBasedEvictions : Nat
  totalReadsKilledDueToKillLimit : Nat
  totalReadsShedDueToOverload : Nat
  readsEnqueuedForAdmission : Nat
  readsEnqueuedForMemory : Nat
  readsAdmitted : Nat
  totalPermits : Nat
  currentPermits : Nat
deriving Repr, DecidableEq

inductive EvictReason where
  | permit
  | time
  | manual
deriving Repr, DecidableEq

/-- The state of a reader_concurrency_semaphore.  The wait list is the
pair admissionQueue/memoryQueue (the source's single wait_list object
holds both FIFOs).  `closedReaders` records the readers handed to
close_reader (closed in the background behind _close_readers_gate);
`evicting` is the flag guarding evict_readers_in_background (the
background loop itself runs asynchronously and is not part of any
inline step). -/
structure Sem where
  semId : Nat
  initialResources : Resources
  resources : Resources
  serializeLimitMultiplier : Nat
  killLimitMultiplier : Nat
  maxQueueLength : Nat
  admissionQueue : List WaitEntry
  memoryQueue : List WaitEntry
  readyList : List WaitEntry
  inactiveReads : List InactiveRead
  nextIrId : Nat
  blessedPermit : Option Nat
  evicting : Bool
  permits : List PermitImpl
  closedReaders : List Reader
  stats : Stats
deriving Repr, DecidableEq

def Sem.findPermit (s : Sem) (pid : Nat) : Option PermitImpl :=
  s.permits.find? fun p => p.pid == pid

def Sem.setPermit (s : Sem) (p : PermitImpl) : Sem :=
  { s with permits := s.permits.map fun q => if q.pid == p.pid then p else q }

/-- Total number of waiters, i.e. the source's _wait_list.size(). -/
def waitSize (s : Sem) : Nat := s.admissionQueue.length + s.memoryQueue.length

/-- The permit ids of all wait-list entries. -/
def waitPids (s : Sem) : List Nat := (s.memoryQueue ++ s.admissionQueue).map WaitEntry.pid

/-- Modelled from the spec: the wait_list type is declared in the missing
header reader_concurrency_semaphore.hh.  The spec describes it as two FIFO
queues (admission and memory); the memory queue holds already-admitted
permits, which maybe_admit_waiters serves first (its front() handles the
waiting_for_memory state explicitly). -/
def waitFront (s : Sem) : Option WaitEntry :=
  match s.memoryQueue with
  | e :: _ => some e
  | [] => s.admissionQueue.head?

/-- Pop of the combined wait list, consistent with `waitFront`. -/
def popFront (s : Sem) : Sem :=
  match s.memoryQueue with
  | _ :: t => { s with memoryQueue := t }
  | [] => { s with admissionQueue := s.admissionQueue.tail }

/-- Modelled from the spec: is_unlimited() is declared in the missing
header; the spec's unlimited constructor (`new_unlimited`) saturates all
limits, delegating with count = INT_MAX and memory = SSIZE_MAX, so a
semaphore is unlimited when its initial resources are the saturated
values. -/
def is_unlimited (s : Sem) : Bool := s.initialResources = ⟨intMax, ssizeMax⟩

/-- reader_concurrency_semaphore::get_serialize_limit (uint64_t). -/
def get_serialize_limit (s : Sem) : Nat :=
  if s.serializeLimitMultiplier = 0 ∨ s.serializeLimitMultiplier = uint32Max ∨ is_unlimited s then
    uint64Max
  else
    asUInt64 (s.initialResources.memory * (s.serializeLimitMultiplier : Int))

/-- reader_concurrency_semaphore::get_kill_limit (uint64_t). -/
def get_kill_limit (s : Sem) : Nat :=
  if s.killLimitMultiplier = 0 ∨ s.killLimitMultiplier = uint32Max ∨ is_unlimited s then
    uint64Max
  else
    asUInt64 (s.initialResources.memory * (s.killLimitMultiplier : Int))

/-- Modelled from the spec: consumed_resources() is declared in the
missing header.  The diagnostic dump in the source (and the spec's
configuration section) computes consumption as initial resources minus
currently available resources. -/
def consumed_resources (s : Sem) : Resources := s.initialResources - s.resources

/-- reader_concurrency_semaphore::has_available_units. -/
def has_available_units (s : Sem) (r : Resources) : Bool :=
  (s.resources.nonZero && decide (r.count ≤ s.resources.count)
      && decide (r.memory ≤ s.resources.memory))
    || decide (s.resources.count = s.initialResources.count)

/-- reader_concurrency_semaphore::all_used_permits_are_stalled. -/
def all_used_permits_are_stalled (s : Sem) : Bool :=
  s.stats.usedPermits == s.stats.blockedPermits

inductive CanAdmit where
  | yes
  | no
  | maybe
deriving Repr, DecidableEq

/-- The part of can_admit_read after the memory-pressure block (the
fall-through tail of the source function). -/
def admit_tail (s : Sem) (p : PermitImpl) : CanAdmit :=
  if p.state = PermitState.waiting_for_memory then .yes
  else if ¬ s.readyList.isEmpty then .no
  else if ¬ all_used_permits_are_stalled s then .no
  else if ¬ has_available_units s p.baseResources then
    (if s.inactiveReads.isEmpty then .no else .maybe)
  else .yes

/-- reader_concurrency_semaphore::can_admit_read.  The comparison of the
ssize_t consumed memory against the uint64_t limits follows the C++
conversion (signed value reinterpreted as unsigned). -/
def can_admit_read (s : Sem) (p : PermitImpl) : CanAdmit :=
  if s.resources.memory < 0 then
    let c := asUInt64 (consumed_resources s).memory
    if get_kill_limit s ≤ c then .no
    else if get_serialize_limit s ≤ c then
      if s.blessedPermit.isSome then .no
      else if p.state = PermitState.waiting_for_memory then .yes else .no
    else admit_tail s p
  else admit_tail s p

/-- The spec's admission predicate, transcribed from the spec pseudocode
(section 4.G) independently of the source: the memory-pressure block may
return an early verdict, otherwise control falls through to the common
checks. -/
def spec_memory_pressure_verdict (s : Sem) (p : PermitImpl) : Option CanAdmit :=
  if s.resources.memory < 0 then
    let c := asUInt64 (consumed_resources s).memory
    if get_kill_limit s ≤ c then some .no
    else if get_serialize_limit s ≤ c then
      some (if s.blessedPermit.isSome then .no
            else if p.state = PermitState.waiting_for_memory then .yes else .no)
    else none
  else none

/-- The spec's admission predicate (section 4.G pseudocode), with the
post-pressure checks transcribed inline. -/
def can_admit_read_spec (s : Sem) (p : PermitImpl) : CanAdmit :=
  match spec_memory_pressure_verdict s p with
  | some v => v
  | none =>
    if p.state = PermitState.waiting_for_memory then .yes
    else if ¬ s.readyList.isEmpty then .no
    else if ¬ (s.stats.usedPermits = s.stats.blockedPermits) then .no
    else if ¬ has_available_units s p.baseResources then
      (if ¬ s.inactiveReads.isEmpty then .maybe else .no)
    else .yes

/-- The spec's sentence for has_available_units, without the source's
extra non_zero conjunct: componentwise availability, or no active reader
by count. -/
def has_available_units_spec (s : Sem) (r : Resources) : Bool :=
  (decide (r.count ≤ s.resources.count) && decide (r.memory ≤ s.resources.memory))
    || decide (s.resources.count = s.initialResources.count)

/-- Result of a state-mutating operation: normal return with a value and
the new state, a propagating std::bad_alloc (OutOfMemory) carrying the
state at the throw point, or an aborted execution (failed assert /
on_internal_error / exhausted recursion bound). -/
inductive RRes (α : Type) where
  | ok (val : α) (s : Sem)
  | oom (s : Sem)
  | halt
deriving Repr, DecidableEq

def RRes.andThen {α β : Type} (r : RRes α) (f : α → Sem → RRes β) : RRes β :=
  match r with
  | .ok a s => f a s
  | .oom s => .oom s
  | .halt => .halt

/-- Dereference of a permit pointer: looking up a permit that is not
registered with the semaphore is undefined behaviour in the source and
is modelled as halt. -/
def getp {α : Type} (s : Sem) (pid : Nat) (k : PermitImpl → RRes α) : RRes α :=
  match s.findPermit pid with
  | some p => k p
  | none => .halt

/-- The type of the admission callback threaded through the operations:
every occurrence of maybe_admit_waiters inside an operation is a call to
this function (instantiated with `mawF fuel` at top level). -/
abbrev Adm := Sem → RRes Unit

/-- reader_concurrency_semaphore::on_permit_used. -/
def sem_on_permit_used (s : Sem) : Sem :=
  { s with stats := { s.stats with usedPermits := s.stats.usedPermits + 1 } }

/-- reader_concurrency_semaphore::on_permit_unused: asserts a user is
registered, decrements, asserts used >= blocked, then runs
maybe_admit_waiters. -/
def sem_on_permit_unusedW (adm : Adm) (s : Sem) : RRes Unit :=
  if s.stats.usedPermits = 0 then .halt
  else
    let s1 : Sem := { s with stats := { s.stats with usedPermits := s.stats.usedPermits - 1 } }
    if s1.stats.usedPermits < s1.stats.blockedPermits then .halt
    else adm s1

/-- reader_concurrency_semaphore::on_permit_blocked: increments, asserts
used >= blocked, then runs maybe_admit_waiters. -/
def sem_on_permit_blockedW (adm : Adm) (s : Sem) : RRes Unit :=
  let s1 : Sem := { s with stats := { s.stats with blockedPermits := s.stats.blockedPermits + 1 } }
  if s1.stats.usedPermits < s1.stats.blockedPermits then .halt
  else adm s1

/-- reader_concurrency_semaphore::on_permit_unblocked. -/
def sem_on_permit_unblocked (s : Sem) : RRes Unit :=
  if s.stats.blockedPermits = 0 then .halt
  else .ok () { s with stats := { s.stats with blockedPermits := s.stats.blockedPermits - 1 } }

/-- reader_permit::impl::on_permit_used (notify semaphore, set the
marked_as_used flag). -/
def impl_on_permit_used (s : Sem) (pid : Nat) : RRes Unit :=
  getp s pid fun p =>
    .ok () ((sem_on_permit_used s).setPermit { p with markedAsUsed := true })

/-- reader_permit::impl::on_permit_unused.  The semaphore (and through it
maybe_admit_waiters) runs before the marked_as_used flag is cleared, as
in the source. -/
def impl_on_permit_unusedW (adm : Adm) (s : Sem) (pid : Nat) : RRes Unit :=
  (sem_on_permit_unusedW adm s).andThen fun _ s1 =>
    getp s1 pid fun p =>
      .ok () (s1.setPermit { p with markedAsUsed := false })

/-- reader_permit::impl::on_permit_blocked. -/
def impl_on_permit_blockedW (adm : Adm) (s : Sem) (pid : Nat) : RRes Unit :=
  (sem_on_permit_blockedW adm s).andThen fun _ s1 =>
    getp s1 pid fun p =>
      .ok () (s1.setPermit { p with markedAsBlocked := true })

/-- reader_permit::impl::on_permit_unblocked. -/
def impl_on_permit_unblocked (s : Sem) (pid : Nat) : RRes Unit :=
  (sem_on_permit_unblocked s).andThen fun _ s1 =>
    getp s1 pid fun p =>
      .ok () (s1.setPermit { p with markedAsBlocked := false })

/-- reader_permit::impl::on_permit_active. -/
def on_permit_activeW (adm : Adm) (s : Sem) (pid : Nat) : RRes Unit :=
  getp s pid fun p =>
    if p.usedBranches ≠ 0 then
      let s1 := s.setPermit { p with state := PermitState.active_used }
      (impl_on_permit_used s1 pid).andThen fun _ s2 =>
        getp s2 pid fun p2 =>
          if p2.blockedBranches ≠ 0 then
            impl_on_permit_blockedW adm (s2.setPermit { p2 with state := PermitState.active_blocked }) pid
          else .ok () s2
    else .ok () (s.setPermit { p with state := PermitState.active_unused })

/-- reader_permit::impl::on_permit_inactive: record the new (waiting or
inactive) state, then drop the permit from the semaphore's blocked and
used counts if it was counted. -/
def on_permit_inactiveW (adm : Adm) (s : Sem) (pid : Nat) (st : PermitState) : RRes Unit :=
  getp s pid fun p =>
    let s1 := s.setPermit { p with state := st }
    (if p.markedAsBlocked then impl_on_permit_unblocked s1 pid else .ok () s1).andThen fun _ s2 =>
      getp s2 pid fun p2 =>
        if p2.markedAsUsed then impl_on_permit_unusedW adm s2 pid else .ok () s2

/-- reader_concurrency_semaphore::consume(permit, r): the kill-limit test
(with its available-memory short-circuit) may throw OutOfMemory, counting
the permit's first kill in the stats; otherwise the resources are taken
from the pool.  The comparison converts the signed consumed memory to
uint64_t as the C++ does. -/
def consume (s : Sem) (pid : Nat) (r : Resources) : RRes Unit :=
  if s.resources.memory ≤ 0 ∧ get_kill_limit s ≤ asUInt64 ((consumed_resources s).memory + r.memory) then
    getp s pid fun p =>
      let s1 := s.setPermit { p with oomKills := p.oomKills + 1 }
      let s2 := if p.oomKills = 0 then
        { s1 with stats := { s1.stats with totalReadsKilledDueToKillLimit := s1.stats.totalReadsKilledDueToKillLimit + 1 } }
      else s1
      .oom s2
  else .ok () { s with resources := s.resources - r }

/-- reader_permit::impl::consume: charge the semaphore, then the permit
(the permit's own tally is not updated if the semaphore throws). -/
def impl_consume (s : Sem) (pid : Nat) (r : Resources) : RRes Unit :=
  (consume s pid r).andThen fun _ s1 =>
    getp s1 pid fun p =>
      .ok () (s1.setPermit { p with resources := p.resources + r })

/-- reader_concurrency_semaphore::signal: return resources to the pool
and try to admit waiters. -/
def signalW (adm : Adm) (s : Sem) (r : Resources) : RRes Unit :=
  adm { s with resources := s.resources + r }

/-- reader_permit::impl::signal: the permit's tally drops before the
semaphore is credited. -/
def impl_signalW (adm : Adm) (s : Sem) (pid : Nat) (r : Resources) : RRes Unit :=
  getp s pid fun p =>
    signalW adm (s.setPermit { p with resources := p.resources - r }) r

/-- reader_permit::impl::on_admission: asserts the permit is not
active_blocked, reactivates it, consumes the base resources and records
that they are held. -/
def on_admissionW (adm : Adm) (s : Sem) (pid : Nat) : RRes Unit :=
  getp s pid fun p =>
    if p.state = PermitState.active_blocked then .halt
    else
      (on_permit_activeW adm s pid).andThen fun _ s1 =>
        getp s1 pid fun p1 =>
          (impl_consume s1 pid p1.baseResources).andThen fun _ s2 =>
            getp s2 pid fun p2 =>
              .ok () (s2.setPermit { p2 with baseResourcesConsumed := true })

/-- reader_permit::impl::on_granted_memory: reactivate if the permit was
waiting for memory, then consume the accumulated requested memory
(zeroed by std::exchange when the consume argument is built). -/
def on_granted_memoryW (adm : Adm) (s : Sem) (pid : Nat) : RRes Unit :=
  getp s pid fun p =>
    (if p.state = PermitState.waiting_for_memory then on_permit_activeW adm s pid
     else .ok () s).andThen fun _ s1 =>
      getp s1 pid fun p1 =>
        let s2 := s1.setPermit { p1 with requestedMemory := 0 }
        impl_consume s2 pid ⟨0, (p1.requestedMemory : Int)⟩

/-- reader_permit::impl::on_waiting_for_admission. -/
def on_waiting_for_admissionW (adm : Adm) (s : Sem) (pid : Nat) : RRes Unit :=
  on_permit_inactiveW adm s pid PermitState.waiting_for_admission

/-- reader_permit::impl::on_waiting_for_memory (the stored memory future
itself carries no semaphore state). -/
def on_waiting_for_memoryW (adm : Adm) (s : Sem) (pid : Nat) : RRes Unit :=
  on_permit_inactiveW adm s pid PermitState.waiting_for_memory

/-- reader_permit::impl::on_register_as_inactive: asserts the permit is
active_unused or active_used, then parks it. -/
def on_register_as_inactiveW (adm : Adm) (s : Sem) (pid : Nat) : RRes Unit :=
  getp s pid fun p =>
    if p.state = PermitState.active_unused ∨ p.state = PermitState.active_used then
      on_permit_inactiveW adm s pid PermitState.inactive
    else .halt

/-- reader_permit::impl::on_unregister_as_inactive: asserts the permit is
inactive, then reactivates it. -/
def on_unregister_as_inactiveW (adm : Adm) (s : Sem) (pid : Nat) : RRes Unit :=
  getp s pid fun p =>
    if p.state = PermitState.inactive then on_permit_activeW adm s pid
    else .halt

/-- reader_permit::impl::on_evicted: asserts the permit is inactive,
marks it evicted and refunds the base resources if they were consumed. -/
def on_evictedW (adm : Adm) (s : Sem) (pid : Nat) : RRes Unit :=
  getp s pid fun p =>
    if p.state = PermitState.inactive then
      let s1 := s.setPermit { p with state := PermitState.evicted }
      if p.baseResourcesConsumed then
        (impl_signalW adm s1 pid p.baseResources).andThen fun _ s2 =>
          getp s2 pid fun p2 =>
            .ok () (s2.setPermit { p2 with baseResourcesConsumed := false })
      else .ok () s1
    else .halt

/-- reader_concurrency_semaphore::evict_readers_in_background: the inline
effect is to raise the _evicting flag (the eviction loop itself is a
background fiber guarded by _close_readers_gate). -/
def evict_readers_in_background (s : Sem) : Sem :=
  if s.evicting then s else { s with evicting := true }

/-- Push an admitted entry with a continuation onto the ready list. -/
def pushReady (s : Sem) (e : WaitEntry) : Sem :=
  { s with readyList := s.readyList ++ [e] }

/-- reader_concurrency_semaphore::maybe_admit_waiters, with an explicit
recursion-depth bound.  Each loop iteration inspects the front waiter;
on `yes` it grants memory (blessing the permit) or admits it, routes the
entry to the ready list when it has a continuation, swallows an
OutOfMemory thrown by the admission (the source's catch sets the waiter's
promise to the exception) and pops the entry; on `maybe` it starts
background eviction; on `no` (or an empty wait list) it stops. -/
def mawF : Nat → Sem → RRes Unit
  | fuel, s =>
    match waitFront s with
    | none => .ok () s
    | some e =>
      match fuel with
      | 0 => .halt
      | Nat.succ m =>
        getp s e.pid fun p =>
          match can_admit_read s p with
          | .yes =>
            let step : RRes Unit :=
              if p.state = PermitState.waiting_for_memory then
                on_granted_memoryW (mawF m) { s with blessedPermit := some e.pid } e.pid
              else
                (on_admissionW (mawF m) s e.pid).andThen fun _ t =>
                  .ok () { t with stats := { t.stats with readsAdmitted := t.stats.readsAdmitted + 1 } }
            match step with
            | .halt => .halt
            | .oom t => mawF m (popFront t)
            | .ok _ t =>
              let t1 := if e.hasFunc then pushReady t e else t
              mawF m (popFront t1)
          | .maybe => .ok () (evict_readers_in_background s)
          | .no => .ok () s

/-- reader_concurrency_semaphore::check_queue_size: true (with the shed
counter bumped) exactly when wait_list.size() + ready_list.size() has
reached max_queue_length. -/
def check_queue_size (s : Sem) : Bool × Sem :=
  if s.maxQueueLength ≤ waitSize s + s.readyList.length then
    (true, { s with stats := { s.stats with totalReadsShedDueToOverload := s.stats.totalReadsShedDueToOverload + 1 } })
  else (false, s)

inductive WaitOn where
  | admission
  | memory
deriving Repr, DecidableEq

/-- reader_concurrency_semaphore::enqueue_waiter: sheds on queue overload
(returning false), otherwise parks the permit in the requested queue and
counts the enqueue (returning true). -/
def enqueue_waiterW (adm : Adm) (s : Sem) (pid : Nat) (hasFunc : Bool) (w : WaitOn) : RRes Bool :=
  match check_queue_size s with
  | (true, s1) => .ok false s1
  | (false, s1) =>
    match w with
    | .admission =>
      (on_waiting_for_admissionW adm s1 pid).andThen fun _ s2 =>
        .ok true { s2 with
          admissionQueue := s2.admissionQueue ++ [⟨pid, hasFunc⟩],
          stats := { s2.stats with readsEnqueuedForAdmission := s2.stats.readsEnqueuedForAdmission + 1 } }
    | .memory =>
      (on_waiting_for_memoryW adm s1 pid).andThen fun _ s2 =>
        .ok true { s2 with
          memoryQueue := s2.memoryQueue ++ [⟨pid, hasFunc⟩],
          stats := { s2.stats with readsEnqueuedForMemory := s2.stats.readsEnqueuedForMemory + 1 } }

/-- Outcome of request_memory: the waiting permit's future is returned
unchanged (coalesced), the memory is granted inline, the permit is parked
on the memory queue, or the enqueue was shed on queue overload. -/
inductive RMOut where
  | coalesced
  | granted
  | enqueued
  | shed
deriving Repr, DecidableEq

/-- reader_concurrency_semaphore::request_memory(permit, memory). -/
def request_memoryW (adm : Adm) (s : Sem) (pid : Nat) (memory : Nat) : RRes RMOut :=
  getp s pid fun p =>
    if p.state = PermitState.waiting_for_memory then .ok .coalesced s
    else if 0 < s.resources.memory ∨
        asUInt64 ((consumed_resources s).memory + (memory : Int)) < get_serialize_limit s then
      (on_granted_memoryW adm s pid).andThen fun _ s1 => .ok .granted s1
    else
      let s1 := if s.blessedPermit = none then { s with blessedPermit := some pid } else s
      if s1.blessedPermit = some pid then
        (on_granted_memoryW adm s1 pid).andThen fun _ s2 => .ok .granted s2
      else
        (enqueue_waiterW adm s1 pid false WaitOn.memory).andThen fun enq s2 =>
          .ok (if enq then .enqueued else .shed) s2

/-- The spec's case analysis for request_memory (section 4.G), transcribed
from its five bullet points in order: coalesce, grant under the serialize
limit, become blessed and grant, grant to the blessed permit, else park
on the memory queue. -/
def request_memory_specW (adm : Adm) (s : Sem) (pid : Nat) (memory : Nat) : RRes RMOut :=
  getp s pid fun p =>
    if p.state = PermitState.waiting_for_memory then .ok .coalesced s
    else if 0 < s.resources.memory ∨
        asUInt64 ((consumed_resources s).memory + (memory : Int)) < get_serialize_limit s then
      (on_granted_memoryW adm s pid).andThen fun _ s1 => .ok .granted s1
    else if s.blessedPermit = none then
      (on_granted_memoryW adm { s with blessedPermit := some pid } pid).andThen fun _ s1 =>
        .ok .granted s1
    else if s.blessedPermit = some pid then
      (on_granted_memoryW adm s pid).andThen fun _ s1 => .ok .granted s1
    else
      (enqueue_waiterW adm s pid false WaitOn.memory).andThen fun enq s1 =>
        .ok (if enq then .enqueued else .shed) s1

/-- close_reader: hand the reader to the background close gate. -/
def close_reader (s : Sem) (r : Reader) : Sem :=
  { s with closedReaders := s.closedReaders ++ [r] }

/-- reader_concurrency_semaphore::register_inactive_read.  The reader's
permit is parked first; then, if there are no waiters and memory is
available, the reader is cached on the inactive list and a valid handle
returned; otherwise the permit is evicted on the spot, the eviction
counted, the reader closed in the background and an empty handle
returned.  (The source's catch of a failed list allocation cannot occur
in the model.) -/
def register_inactive_readW (adm : Adm) (s : Sem) (reader : Reader) : RRes (Option IRHandle) :=
  (on_register_as_inactiveW adm s reader.pid).andThen fun _ s1 =>
    if waitSize s1 = 0 ∧ 0 < s1.resources.memory then
      .ok (some ⟨s1.semId, s1.nextIrId⟩)
        { s1 with
          inactiveReads := s1.inactiveReads ++ [⟨s1.nextIrId, reader⟩],
          nextIrId := s1.nextIrId + 1,
          stats := { s1.stats with inactiveReads := s1.stats.inactiveReads + 1 } }
    else
      (on_evictedW adm s1 reader.pid).andThen fun _ s2 =>
        let s3 : Sem := { s2 with stats := { s2.stats with permitBasedEvictions := s2.stats.permitBasedEvictions + 1 } }
        .ok none (close_reader s3 reader)

/-- reader_concurrency_semaphore::unregister_inactive_read.  An empty
handle returns nothing and changes nothing; a handle from a different
semaphore is an internal error; otherwise the reader is pulled out of the
inactive list and its permit reactivated. -/
def unregister_inactive_readW (adm : Adm) (s : Sem) (h : Option IRHandle) : RRes (Option Reader) :=
  match h with
  | none => .ok none s
  | some hh =>
    if hh.semId ≠ s.semId then .halt
    else
      match s.inactiveReads.find? fun ir => ir.irId == hh.irId with
      | none => .halt
      | some ir =>
        let s1 : Sem := { s with
          stats := { s.stats with inactiveReads := s.stats.inactiveReads - 1 },
          inactiveReads := s.inactiveReads.filter fun x => x.irId ≠ hh.irId }
        (on_unregister_as_inactiveW adm s1 ir.reader.pid).andThen fun _ s2 =>
          .ok (some ir.reader) s2

/-- reader_concurrency_semaphore::try_evict_one_inactive_read: evict the
front of the inactive list (detach, mark evicted and refund, count the
eviction by reason, close the reader), or report there was nothing to
evict. -/
def try_evict_one_inactive_readW (adm : Adm) (s : Sem) (reason : EvictReason) : RRes Bool :=
  match s.inactiveReads with
  | [] => .ok false s
  | ir :: rest =>
    let s1 : Sem := { s with inactiveReads := rest }
    (on_evictedW adm s1 ir.reader.pid).andThen fun _ s2 =>
      let s3 : Sem := { s2 with stats :=
        match reason with
        | .permit => { s2.stats with permitBasedEvictions := s2.stats.permitBasedEvictions + 1 }
        | .time => { s2.stats with timeBasedEvictions := s2.stats.timeBasedEvictions + 1 }
        | .manual => s2.stats }
      let s4 : Sem := { s3 with stats := { s3.stats with inactiveReads := s3.stats.inactiveReads - 1 } }
      .ok true (close_reader s4 ir.reader)

/-- reader_concurrency_semaphore::on_permit_destroyed: unlink the permit,
drop the current-permit count, and if it was the blessed permit clear the
slot and admit waiters. -/
def on_permit_destroyedW (adm : Adm) (s : Sem) (pid : Nat) : RRes Unit :=
  let s1 : Sem := { s with
    permits := s.permits.filter fun q => q.pid ≠ pid,
    stats := { s.stats with currentPermits := s.stats.currentPermits - 1 } }
  if s1.blessedPermit = some pid then adm { s1 with blessedPermit := none }
  else .ok () s1

/-- reader_permit::impl::~impl: refund the base resources if held, refund
any leaked resources, force-repair the semaphore's used/blocked counters
when branches were orphaned, then unregister from the semaphore. -/
def permit_destroyW (adm : Adm) (s : Sem) (pid : Nat) : RRes Unit :=
  getp s pid fun p =>
    (if p.baseResourcesConsumed then impl_signalW adm s pid p.baseResources else .ok () s).andThen fun _ s1 =>
      getp s1 pid fun p1 =>
        (if p1.resources.nonZero then impl_signalW adm s1 pid p1.resources else .ok () s1).andThen fun _ s2 =>
          getp s2 pid fun p2 =>
            (if p2.usedBranches ≠ 0 then sem_on_permit_unusedW adm s2 else .ok () s2).andThen fun _ s3 =>
              getp s3 pid fun p3 =>
                (if p3.blockedBranches ≠ 0 then sem_on_permit_unblocked s3 else .ok () s3).andThen fun _ s4 =>
                  on_permit_destroyedW adm s4 pid

/-- reader_permit::impl::mark_used. -/
def mark_usedW (adm : Adm) (s : Sem) (pid : Nat) : RRes Unit :=
  getp s pid fun p =>
    let p1 : PermitImpl := { p with usedBranches := p.usedBranches + 1 }
    if ¬ p.markedAsUsed ∧ p.state = PermitState.active_unused then
      let s1 := s.setPermit { p1 with state := PermitState.active_used }
      (impl_on_permit_used s1 pid).andThen fun _ s2 =>
        getp s2 pid fun p2 =>
          if p2.blockedBranches ≠ 0 ∧ ¬ p2.markedAsBlocked then
            impl_on_permit_blockedW adm (s2.setPermit { p2 with state := PermitState.active_blocked }) pid
          else .ok () s2
    else .ok () (s.setPermit p1)

/-- reader_permit::impl::mark_unused: asserts a used branch exists; when
the last one is dropped, a still-set blocked mark is force-cleared first
(guards may unwind out of order) and the permit goes unused. -/
def mark_unusedW (adm : Adm) (s : Sem) (pid : Nat) : RRes Unit :=
  getp s pid fun p =>
    if p.usedBranches = 0 then .halt
    else
      let p1 : PermitImpl := { p with usedBranches := p.usedBranches - 1 }
      let s1 := s.setPermit p1
      if p1.markedAsUsed ∧ p1.usedBranches = 0 then
        (if p1.markedAsBlocked then impl_on_permit_unblocked s1 pid else .ok () s1).andThen fun _ s2 =>
          getp s2 pid fun p2 =>
            impl_on_permit_unusedW adm (s2.setPermit { p2 with state := PermitState.active_unused }) pid
      else .ok () s1

/-- reader_permit::impl::mark_blocked. -/
def mark_blockedW (adm : Adm) (s : Sem) (pid : Nat) : RRes Unit :=
  getp s pid fun p =>
    let p1 : PermitImpl := { p with blockedBranches := p.blockedBranches + 1 }
    let s1 := s.setPermit p1
    if p1.blockedBranches = 1 ∧ p1.state = PermitState.active_used then
      impl_on_permit_blockedW adm (s1.setPermit { p1 with state := PermitState.active_blocked }) pid
    else .ok () s1

/-- reader_permit::impl::mark_unblocked: asserts a blocked branch exists;
when the last one is dropped from a marked permit it returns to
active_used. -/
def mark_unblocked (s : Sem) (pid : Nat) : RRes Unit :=
  getp s pid fun p =>
    if p.blockedBranches = 0 then .halt
    else
      let p1 : PermitImpl := { p with blockedBranches := p.blockedBranches - 1 }
      let s1 := s.setPermit p1
      if p1.markedAsBlocked ∧ p1.blockedBranches = 0 then
        impl_on_permit_unblocked (s1.setPermit { p1 with state := PermitState.active_used }) pid
      else .ok () s1

/-- Fueled top-level entry points: the admission callback is the fueled
maybe_admit_waiters. -/
def maybe_admit_waiters (fuel : Nat) (s : Sem) : RRes Unit := mawF fuel s

def request_memory (fuel : Nat) (s : Sem) (pid : Nat) (memory : Nat) : RRes RMOut :=
  request_memoryW (mawF fuel) s pid memory

def request_memory_spec (fuel : Nat) (s : Sem) (pid : Nat) (memory : Nat) : RRes RMOut :=
  request_memory_specW (mawF fuel) s pid memory

def enqueue_waiter (fuel : Nat) (s : Sem) (pid : Nat) (hasFunc : Bool) (w : WaitOn) : RRes Bool :=
  enqueue_waiterW (mawF fuel) s pid hasFunc w

def register_inactive_read (fuel : Nat) (s : Sem) (reader : Reader) : RRes (Option IRHandle) :=
  register_inactive_readW (mawF fuel) s reader

def unregister_inactive_read (fuel : Nat) (s : Sem) (h : Option IRHandle) : RRes (Option Reader) :=
  unregister_inactive_readW (mawF fuel) s h

def try_evict_one_inactive_read (fuel : Nat) (s : Sem) (reason : EvictReason) : RRes Bool :=
  try_evict_one_inactive_readW (mawF fuel) s reason

def permit_destroy (fuel : Nat) (s : Sem) (pid : Nat) : RRes Unit :=
  permit_destroyW (mawF fuel) s pid

def mark_used (fuel : Nat) (s : Sem) (pid : Nat) : RRes Unit := mark_usedW (mawF fuel) s pid

def mark_unused (fuel : Nat) (s : Sem) (pid : Nat) : RRes Unit := mark_unusedW (mawF fuel) s pid

def mark_blocked (fuel : Nat) (s : Sem) (pid : Nat) : RRes Unit := mark_blockedW (mawF fuel) s pid

def on_admission (fuel : Nat) (s : Sem) (pid : Nat) : RRes Unit := on_admissionW (mawF fuel) s pid

def impl_signal (fuel : Nat) (s : Sem) (pid : Nat) (r : Resources) : RRes Unit :=
  impl_signalW (mawF fuel) s pid r

/-- The operations of the claim about the semaphore-wide counter
invariant: the four mark transitions, admission, eviction and permit
destruction. -/
inductive SemOp where
  | opMarkUsed (pid : Nat)
  | opMarkUnused (pid : Nat)
  | opMarkBlocked (pid : Nat)
  | opMarkUnblocked (pid : Nat)
  | opAdmission (pid : Nat)
  | opEviction (reason : EvictReason)
  | opDestroy (pid : Nat)
deriving Repr, DecidableEq

def semStep (fuel : Nat) (s : Sem) : SemOp → RRes Unit
  | .opMarkUsed pid => mark_used fuel s pid
  | .opMarkUnused pid => mark_unused fuel s pid
  | .opMarkBlocked pid => mark_blocked fuel s pid
  | .opMarkUnblocked pid => mark_unblocked s pid
  | .opAdmission pid => on_admission fuel s pid
  | .opEviction reason =>
    (try_evict_one_inactive_read fuel s reason).andThen fun _ t => .ok () t
  | .opDestroy pid => permit_destroy fuel s pid

/-! ## Helper lemmas shared by the claim proofs -/

theorem find_pid_map_replace (l : List PermitImpl) (p : PermitImpl) (q : Nat) (h : q ≠ p.pid) :
    (l.map fun x => if x.pid == p.pid then p else x).find? (fun x => x.pid == q)
      = l.find? fun x => x.pid == q := by
  induction l with
  | nil => rfl
  | cons a t ih =>
    simp only [List.map_cons]
    by_cases ha : a.pid = p.pid
    · rw [if_pos (show (a.pid == p.pid) = true by simp [ha])]
      rw [List.find?_cons_of_neg _ (by simp [Ne.symm h]),
        List.find?_cons_of_neg _ (by simp [ha, Ne.symm h])]
      exact ih
    · rw [if_neg (show ¬ (a.pid == p.pid) = true by simp [ha])]
      by_cases hq : a.pid = q
      · rw [List.find?_cons_of_pos _ (by simp [hq]), List.find?_cons_of_pos _ (by simp [hq])]
      · rw [List.find?_cons_of_neg _ (by simp [hq]), List.find?_cons_of_neg _ (by simp [hq])]
        exact ih

theorem find_pid_map_replace_eq (l : List PermitImpl) (p p' : PermitImpl) (pid : Nat)
    (hfound : l.find? (fun x => x.pid == pid) = some p) (hid : p'.pid = pid) :
    (l.map fun x => if x.pid == p'.pid then p' else x).find? (fun x => x.pid == pid)
      = some p' := by
  induction l with
  | nil => simp at hfound
  | cons a t ih =>
    simp only [List.map_cons]
    by_cases hq : a.pid = pid
    · rw [if_pos (show (a.pid == p'.pid) = true by simp [hq, hid])]
      rw [List.find?_cons_of_pos _ (by simp [hid])]
    · rw [if_neg (show ¬ (a.pid == p'.pid) = true by simp [hq, hid])]
      rw [List.find?_cons_of_neg _ (by simp [hq])] at hfound
      rw [List.find?_cons_of_neg _ (by simp [hq])]
      exact ih hfound

theorem Sem.setPermit_stats (s : Sem) (p : PermitImpl) : (s.setPermit p).stats = s.stats := rfl

theorem findPermit_setPermit_ne (s : Sem) (p : PermitImpl) (q : Nat) (h : q ≠ p.pid) :
    (s.setPermit p).findPermit q = s.findPermit q :=
  find_pid_map_replace s.permits p q h

theorem findPermit_setPermit_eq (s : Sem) (p p' : PermitImpl) (pid : Nat)
    (hfound : s.findPermit pid = some p) (hid : p'.pid = pid) :
    (s.setPermit p').findPermit pid = some p' :=
  find_pid_map_replace_eq s.permits p p' pid hfound hid

/-! ## C1: can_admit_read matches the spec's admission predicate -/

/-- C1: can_admit_read implements exactly the spec's admission predicate:
with negative available memory it returns no at or above the kill limit,
then at or above the serialize limit no if a blessed permit is set and
otherwise yes exactly for waiting_for_memory permits; past the pressure
block it returns yes for waiting_for_memory permits, no for a non-empty
ready list, no when used_permits differs from blocked_permits, and when
base units are unavailable maybe or no by inactive-list emptiness; in all
remaining cases yes. -/
theorem claim_c1_can_admit_read_refines_spec (s : Sem) (p : PermitImpl) :
    can_admit_read s p = can_admit_read_spec s p := by
  unfold can_admit_read can_admit_read_spec spec_memory_pressure_verdict admit_tail
      all_used_permits_are_stalled
  by_cases h1 : s.resources.memory < 0
  · simp only [h1, if_true]
    by_cases h2 : get_kill_limit s ≤ asUInt64 (consumed_resources s).memory
    · simp [h2]
    · simp only [h2, if_false]
      by_cases h3 : get_serialize_limit s ≤ asUInt64 (consumed_resources s).memory
      · simp [h3]
      · simp only [h3, if_false]
        by_cases h4 : p.state = PermitState.waiting_for_memory
        · simp [h4]
        · simp only [h4, if_false]
          by_cases h5 : s.readyList.isEmpty
          · simp only [h5, not_true, if_false]
            by_cases h6 : s.stats.usedPermits = s.stats.blockedPermits
            · have h6' : (s.stats.usedPermits == s.stats.blockedPermits) = true := by simp [h6]
              simp only [h6', h6, not_true, if_false]
              by_cases h7 : has_available_units s p.baseResources
              · simp [h7]
              · simp only [h7, Bool.not_eq_true, if_true]
                cases hi : s.inactiveReads <;> simp [List.isEmpty]
            · have h6' : (s.stats.usedPermits == s.stats.blockedPermits) = false := by simp [h6]
              simp [h6', h6]
          · simp [h5]
  · simp only [h1, if_false]
    by_cases h4 : p.state = PermitState.waiting_for_memory
    · simp [h4]
    · simp only [h4, if_false]
      by_cases h5 : s.readyList.isEmpty
      · simp only [h5, not_true, if_false]
        by_cases h6 : s.stats.usedPermits = s.stats.blockedPermits
        · have h6' : (s.stats.usedPermits == s.stats.blockedPermits) = true := by simp [h6]
          simp only [h6', h6, not_true, if_false]
          by_cases h7 : has_available_units s p.baseResources
          · simp [h7]
          · simp only [h7, Bool.not_eq_true, if_true]
            cases hi : s.inactiveReads <;> simp [List.isEmpty]
        · have h6' : (s.stats.usedPermits == s.stats.blockedPermits) = false := by simp [h6]
          simp [h6', h6]
      · simp [h5]

theorem findPermit_some_pid (s : Sem) (pid : Nat) (p : PermitImpl)
    (h : s.findPermit pid = some p) : p.pid = pid := by
  have := List.find?_some h
  simpa using this

/-! ## C2: has_available_units -/

def zeroStats : Stats := ⟨0, 0, 0, 0, 0, 0, 0, 0, 0, 0, 0, 0⟩

def c2Sem : Sem :=
  { semId := 0, initialResources := ⟨1, 100⟩, resources := ⟨0, 0⟩,
    serializeLimitMultiplier := 2, killLimitMultiplier := 4, maxQueueLength := 4,
    admissionQueue := [], memoryQueue := [], readyList := [], inactiveReads := [],
    nextIrId := 0, blessedPermit := none, evicting := false, permits := [],
    closedReaders := [], stats := zeroStats }

/-- C2 counterexample: with all resources exactly exhausted (so
resources = (0,0)) and a (0,0) request, the spec's two disjuncts hold
(componentwise availability is satisfied) yet the source returns false,
because of its extra non_zero conjunct. -/
theorem claim_c2_counterexample :
    has_available_units c2Sem ⟨0, 0⟩ = false
      ∧ has_available_units_spec c2Sem ⟨0, 0⟩ = true := by
  constructor <;> rfl

/-- C2 amended: has_available_units returns true iff (resources are
non-zero and resources.count ≥ base.count and resources.memory ≥
base.memory) or resources.count = initial.count. -/
theorem claim_c2_has_available_units (s : Sem) (r : Resources) :
    has_available_units s r = true ↔
      (((s.resources.count ≠ 0 ∨ s.resources.memory ≠ 0) ∧
          r.count ≤ s.resources.count ∧ r.memory ≤ s.resources.memory) ∨
        s.resources.count = s.initialResources.count) := by
  unfold has_available_units Resources.nonZero
  simp [and_assoc]

/-! ## C3: request_memory case analysis -/

theorem request_memoryW_eq_specW (adm : Adm) (s : Sem) (pid : Nat) (m : Nat) :
    request_memoryW adm s pid m = request_memory_specW adm s pid m := by
  unfold request_memoryW request_memory_specW getp
  cases hf : s.findPermit pid with
  | none => rfl
  | some p =>
    by_cases h1 : p.state = PermitState.waiting_for_memory
    · simp [h1]
    · simp only [h1, if_false]
      by_cases h2 : 0 < s.resources.memory ∨
          asUInt64 ((consumed_resources s).memory + (m : Int)) < get_serialize_limit s
      · simp [h2]
      · simp only [h2, if_false]
        cases hb : s.blessedPermit with
        | none => simp [hb]
        | some q =>
          by_cases hq : q = pid
          · simp [hb, hq]
          · simp [hb, hq]

/-- C3: request_memory follows exactly the spec's first-match case
analysis: coalesce for a permit already waiting for memory; grant
immediately when memory is available or the charge stays below the
serialize limit; otherwise become blessed and grant when no permit is
blessed; grant when this permit is the blessed one; else enqueue on the
memory queue. -/
theorem claim_c3_request_memory_case_analysis (fuel : Nat) (s : Sem) (pid : Nat) (m : Nat) :
    request_memory fuel s pid m = request_memory_spec fuel s pid m :=
  request_memoryW_eq_specW (mawF fuel) s pid m

/-! ## C9: consume with positive available memory never throws -/

/-- C9: a consume call made while available memory is strictly positive
never throws OutOfMemory (the kill-limit check short-circuits on
memory <= 0), even if the charge would reach the kill limit: the
resources are simply taken. -/
theorem claim_c9_consume_positive_memory (s : Sem) (pid : Nat) (r : Resources)
    (h : 0 < s.resources.memory) :
    consume s pid r = RRes.ok () { s with resources := s.resources - r } := by
  unfold consume
  rw [if_neg]
  rintro ⟨h1, _⟩
  omega

def c9Sem : Sem :=
  { semId := 0, initialResources := ⟨2, 100⟩, resources := ⟨1, 90⟩,
    serializeLimitMultiplier := 2, killLimitMultiplier := 4, maxQueueLength := 4,
    admissionQueue := [], memoryQueue := [], readyList := [], inactiveReads := [],
    nextIrId := 0, blessedPermit := none, evicting := false, permits := [],
    closedReaders := [], stats := zeroStats }

/-- C9 witness: at a state with 90 units of memory available and kill
limit 400, a charge of 1000 (which sends consumption far past the kill
limit) still succeeds. -/
theorem claim_c9_witness :
    0 < c9Sem.resources.memory ∧
    get_kill_limit c9Sem ≤ asUInt64 ((consumed_resources c9Sem).memory + (1000 : Int)) ∧
    consume c9Sem 0 ⟨0, 1000⟩ = RRes.ok () { c9Sem with resources := c9Sem.resources - ⟨0, 1000⟩ } :=
  ⟨by decide, by decide, claim_c9_consume_positive_memory c9Sem 0 ⟨0, 1000⟩ (by decide)⟩

/-! ## C10: unregister_inactive_read with an empty handle -/

/-- C10: calling unregister_inactive_read with an empty handle returns an
empty optional and leaves the whole semaphore state unchanged. -/
theorem claim_c10_unregister_empty_handle (fuel : Nat) (s : Sem) :
    unregister_inactive_read fuel s none = RRes.ok none s := rfl

/-! ## C6: the kill limit and its once-per-permit accounting -/

def c6Sem : Sem :=
  { semId := 0, initialResources := ⟨2, 100⟩, resources := ⟨1, 90⟩,
    serializeLimitMultiplier := 2, killLimitMultiplier := 4, maxQueueLength := 4,
    admissionQueue := [], memoryQueue := [], readyList := [], inactiveReads := [],
    nextIrId := 0, blessedPermit := none, evicting := false, permits := [],
    closedReaders := [], stats := zeroStats }

/-- C6 counterexample: with 90 units of memory still available and kill
limit 400, a charge of 1000 crosses the kill limit yet consume does not
throw OutOfMemory (the check is short-circuited by the available
memory), refuting "throws exactly when the charge would cross the kill
limit". -/
theorem claim_c6_counterexample :
    get_kill_limit c6Sem ≤ asUInt64 ((consumed_resources c6Sem).memory + (1000 : Int)) ∧
    consume c6Sem 0 ⟨0, 1000⟩ = RRes.ok () { c6Sem with resources := c6Sem.resources - ⟨0, 1000⟩ } := by
  constructor
  · decide
  · rfl

/-- C6 amended: consume throws OutOfMemory exactly when available memory
is at most zero and the charge would reach the kill limit; when it
throws, the permit's oom_kills is incremented, and
total_reads_killed_due_to_kill_limit is incremented exactly on the
permit's first kill (when oom_kills was zero), never on later ones. -/
theorem claim_c6_consume_kill_once (s : Sem) (pid : Nat) (r : Resources) (p : PermitImpl)
    (hp : s.findPermit pid = some p) :
    ((∃ t, consume s pid r = RRes.oom t) ↔
      (s.resources.memory ≤ 0 ∧
        get_kill_limit s ≤ asUInt64 ((consumed_resources s).memory + r.memory))) ∧
    (∀ t, consume s pid r = RRes.oom t →
      t.findPermit pid = some { p with oomKills := p.oomKills + 1 } ∧
      t.stats.totalReadsKilledDueToKillLimit
        = s.stats.totalReadsKilledDueToKillLimit + (if p.oomKills = 0 then 1 else 0)) := by
  have hpid : p.pid = pid := findPermit_some_pid s pid p hp
  by_cases hcond : s.resources.memory ≤ 0 ∧
      get_kill_limit s ≤ asUInt64 ((consumed_resources s).memory + r.memory)
  · have hred : consume s pid r = RRes.oom (if p.oomKills = 0
        then { s.setPermit { p with oomKills := p.oomKills + 1 } with
                stats := { (s.setPermit { p with oomKills := p.oomKills + 1 }).stats with
                  totalReadsKilledDueToKillLimit :=
                    (s.setPermit { p with oomKills := p.oomKills + 1 }).stats.totalReadsKilledDueToKillLimit + 1 } }
        else s.setPermit { p with oomKills := p.oomKills + 1 }) := by
      unfold consume getp
      rw [if_pos hcond, hp]
    constructor
    · exact ⟨fun _ => hcond, fun _ => ⟨_, hred⟩⟩
    · intro t ht
      rw [hred] at ht
      by_cases hk : p.oomKills = 0
      · rw [if_pos hk] at ht
        cases ht
        refine ⟨findPermit_setPermit_eq s p _ pid hp hpid, ?_⟩
        rw [if_pos hk]
        rfl
      · rw [if_neg hk] at ht
        cases ht
        refine ⟨findPermit_setPermit_eq s p _ pid hp hpid, ?_⟩
        rw [if_neg hk]
        rfl
  · have hred : consume s pid r = RRes.ok () { s with resources := s.resources - r } := by
      unfold consume
      rw [if_neg hcond]
    constructor
    · constructor
      · rintro ⟨t, ht⟩
        rw [hred] at ht
        cases ht
      · intro hc
        exact absurd hc hcond
    · intro t ht
      rw [hred] at ht
      cases ht

def c6wP : PermitImpl :=
  { pid := 0, baseResources := ⟨1, 10⟩, baseResourcesConsumed := true,
    resources := ⟨1, 10⟩, state := PermitState.active_unused, usedBranches := 0,
    markedAsUsed := false, blockedBranches := 0, markedAsBlocked := false,
    requestedMemory := 0, oomKills := 0 }

def c6wSem : Sem :=
  { semId := 0, initialResources := ⟨2, 100⟩, resources := ⟨1, -5⟩,
    serializeLimitMultiplier := 2, killLimitMultiplier := 4, maxQueueLength := 4,
    admissionQueue := [], memoryQueue := [], readyList := [], inactiveReads := [],
    nextIrId := 0, blessedPermit := none, evicting := false, permits := [c6wP],
    closedReaders := [], stats := zeroStats }

/-- C6 witness: at a state with memory over-committed (available -5,
consumed 105, kill limit 400) a charge of 300 reaches the limit; the
amended theorem instantiated there shows the throw happens and the
kill counter advances by one on this first kill. -/
theorem claim_c6_witness :
    ((∃ t, consume c6wSem 0 ⟨0, 300⟩ = RRes.oom t) ↔
      (c6wSem.resources.memory ≤ 0 ∧
        get_kill_limit c6wSem ≤ asUInt64 ((consumed_resources c6wSem).memory + (300 : Int)))) ∧
    (∀ t, consume c6wSem 0 ⟨0, 300⟩ = RRes.oom t →
      t.findPermit 0 = some { c6wP with oomKills := c6wP.oomKills + 1 } ∧
      t.stats.totalReadsKilledDueToKillLimit
        = c6wSem.stats.totalReadsKilledDueToKillLimit + (if c6wP.oomKills = 0 then 1 else 0)) :=
  claim_c6_consume_kill_once c6wSem 0 ⟨0, 300⟩ c6wP rfl

/-! ## Result predicates and the maybe_admit_waiters frame -/

/-- P holds of every state an operation can complete in (normally or by
a propagating OutOfMemory); an aborted run has no final state. -/
def RROn {α : Type} (r : RRes α) (P : Sem → Prop) : Prop :=
  match r with
  | .ok _ t => P t
  | .oom t => P t
  | .halt => True

theorem RROn_andThen {α β : Type} {P : Sem → Prop} {r : RRes α} {f : α → Sem → RRes β}
    (h1 : RROn r P) (h2 : ∀ a t, r = RRes.ok a t → P t → RROn (f a t) P) :
    RROn (r.andThen f) P := by
  cases hr : r with
  | ok a t =>
    rw [hr] at h1
    exact h2 a t hr h1
  | oom t =>
    rw [hr] at h1
    exact h1
  | halt => trivial

theorem RROn_getp {α : Type} {P : Sem → Prop} {s : Sem} {pid : Nat} {k : PermitImpl → RRes α}
    (h : ∀ p, s.findPermit pid = some p → RROn (k p) P) :
    RROn (getp s pid k) P := by
  unfold getp
  cases hf : s.findPermit pid with
  | some p => exact h p hf
  | none => trivial

/-- What maybe_admit_waiters can change, seen from a base state s: only
permits that are (or were) in the wait list — or the single excepted
permit `ex` an enclosing operation is working on — are touched; the wait
list only loses entries; the inactive list, the closed-readers record,
the eviction and shed counters, the handle counter and the semaphore
identity are untouched. -/
structure SFrame (ex : Option Nat) (s t : Sem) : Prop where
  permitsOutside : ∀ q, some q ≠ ex → q ∉ waitPids s → t.findPermit q = s.findPermit q
  waitSub : ∀ q, q ∈ waitPids t → q ∈ waitPids s
  inact : t.inactiveReads = s.inactiveReads
  closedR : t.closedReaders = s.closedReaders
  pbev : t.stats.permitBasedEvictions = s.stats.permitBasedEvictions
  shed : t.stats.totalReadsShedDueToOverload = s.stats.totalReadsShedDueToOverload
  nir : t.nextIrId = s.nextIrId
  sid : t.semId = s.semId

theorem findPermit_congr {s t : Sem} (h : t.permits = s.permits) (q : Nat) :
    t.findPermit q = s.findPermit q := by
  unfold Sem.findPermit
  rw [h]

theorem waitPids_congr {s t : Sem} (h1 : t.admissionQueue = s.admissionQueue)
    (h2 : t.memoryQueue = s.memoryQueue) : waitPids t = waitPids s := by
  unfold waitPids
  rw [h1, h2]

theorem SFrame.refl_self (ex : Option Nat) (s : Sem) : SFrame ex s s :=
  ⟨fun _ _ _ => rfl, fun _ h => h, rfl, rfl, rfl, rfl, rfl, rfl⟩

theorem SFrame.trans {ex : Option Nat} {s t u : Sem}
    (h1 : SFrame ex s t) (h2 : SFrame ex t u) : SFrame ex s u := by
  refine ⟨?_, ?_, ?_, ?_, ?_, ?_, ?_, ?_⟩
  · intro q hq hw
    rw [h2.permitsOutside q hq (fun hmem => hw (h1.waitSub q hmem))]
    exact h1.permitsOutside q hq hw
  · intro q hq
    exact h1.waitSub q (h2.waitSub q hq)
  · rw [h2.inact, h1.inact]
  · rw [h2.closedR, h1.closedR]
  · rw [h2.pbev, h1.pbev]
  · rw [h2.shed, h1.shed]
  · rw [h2.nir, h1.nir]
  · rw [h2.sid, h1.sid]

theorem SFrame.weaken {s t : Sem} (ex : Option Nat) (h : SFrame none s t) : SFrame ex s t :=
  ⟨fun q _ hw => h.permitsOutside q (by simp) hw, h.waitSub, h.inact, h.closedR,
    h.pbev, h.shed, h.nir, h.sid⟩

/-- A frame over an excepted permit that is itself in the wait list is an
unconditional frame. -/
theorem SFrame.strengthen {s t : Sem} {pid : Nat} (hmem : pid ∈ waitPids s)
    (h : SFrame (some pid) s t) : SFrame none s t := by
  refine ⟨?_, h.waitSub, h.inact, h.closedR, h.pbev, h.shed, h.nir, h.sid⟩
  intro q _ hw
  refine h.permitsOutside q ?_ hw
  intro hq
  rw [Option.some_inj] at hq
  rw [hq] at hw
  exact hw hmem

/-- A state change that rebuilds no permit, queue, inactive list, closed
list, eviction/shed counter, handle counter or semaphore id is a frame. -/
theorem SFrame.of_eq {ex : Option Nat} {s t : Sem}
    (h1 : t.permits = s.permits) (h2 : t.admissionQueue = s.admissionQueue)
    (h3 : t.memoryQueue = s.memoryQueue) (h4 : t.inactiveReads = s.inactiveReads)
    (h5 : t.closedReaders = s.closedReaders)
    (h6 : t.stats.permitBasedEvictions = s.stats.permitBasedEvictions)
    (h7 : t.stats.totalReadsShedDueToOverload = s.stats.totalReadsShedDueToOverload)
    (h8 : t.nextIrId = s.nextIrId) (h9 : t.semId = s.semId) :
    SFrame ex s t := by
  refine ⟨?_, ?_, h4, h5, h6, h7, h8, h9⟩
  · intro q _ _
    exact findPermit_congr h1 q
  · intro q hq
    rw [waitPids_congr h2 h3] at hq
    exact hq

theorem RROn_frame_trans {ex : Option Nat} {s t : Sem} (hst : SFrame ex s t)
    {α : Type} {r : RRes α} (h : RROn r (SFrame ex t)) : RROn r (SFrame ex s) := by
  cases r with
  | ok a u => exact SFrame.trans hst h
  | oom u => exact SFrame.trans hst h
  | halt => trivial

theorem RROn_frame_weaken {t : Sem} (ex : Option Nat)
    {α : Type} {r : RRes α} (h : RROn r (SFrame none t)) : RROn r (SFrame ex t) := by
  cases r with
  | ok a u => exact SFrame.weaken ex h
  | oom u => exact SFrame.weaken ex h
  | halt => trivial

/-- Replacing the fields of a permit with the given id is a frame that
excepts that id. -/
theorem frame_setPermit (s : Sem) (p : PermitImpl) (pid : Nat) (hid : p.pid = pid) :
    SFrame (some pid) s (s.setPermit p) := by
  refine ⟨?_, ?_, rfl, rfl, rfl, rfl, rfl, rfl⟩
  · intro q hq _
    refine findPermit_setPermit_ne s p q ?_
    intro he
    exact hq (by rw [he, hid])
  · intro q hq
    exact hq

theorem frame_sem_on_permit_used (ex : Option Nat) (s : Sem) :
    SFrame ex s (sem_on_permit_used s) :=
  SFrame.of_eq rfl rfl rfl rfl rfl rfl rfl rfl rfl

theorem fr_sem_on_permit_unusedW (adm : Adm)
    (hadm : ∀ u, RROn (adm u) (SFrame none u)) (s : Sem) :
    RROn (sem_on_permit_unusedW adm s) (SFrame none s) := by
  unfold sem_on_permit_unusedW
  try dsimp only
  split
  · trivial
  · split
    · trivial
    · refine RROn_frame_trans ?_ (hadm _)
      exact SFrame.of_eq rfl rfl rfl rfl rfl rfl rfl rfl rfl

theorem fr_sem_on_permit_blockedW (adm : Adm)
    (hadm : ∀ u, RROn (adm u) (SFrame none u)) (s : Sem) :
    RROn (sem_on_permit_blockedW adm s) (SFrame none s) := by
  unfold sem_on_permit_blockedW
  try dsimp only
  split
  · trivial
  · refine RROn_frame_trans ?_ (hadm _)
    exact SFrame.of_eq rfl rfl rfl rfl rfl rfl rfl rfl rfl

theorem fr_sem_on_permit_unblocked (s : Sem) :
    RROn (sem_on_permit_unblocked s) (SFrame none s) := by
  unfold sem_on_permit_unblocked
  try dsimp only
  split
  · trivial
  · exact SFrame.of_eq rfl rfl rfl rfl rfl rfl rfl rfl rfl

theorem fr_impl_on_permit_used (s : Sem) (pid : Nat) :
    RROn (impl_on_permit_used s pid) (SFrame (some pid) s) := by
  unfold impl_on_permit_used
  refine RROn_getp fun p hp => ?_
  have hpid := findPermit_some_pid s pid p hp
  refine SFrame.trans ?_
    (frame_setPermit (sem_on_permit_used s) { p with markedAsUsed := true } pid hpid)
  exact SFrame.weaken _ (frame_sem_on_permit_used none s)

theorem fr_impl_on_permit_unusedW (adm : Adm)
    (hadm : ∀ u, RROn (adm u) (SFrame none u)) (s : Sem) (pid : Nat) :
    RROn (impl_on_permit_unusedW adm s pid) (SFrame (some pid) s) := by
  unfold impl_on_permit_unusedW
  refine RROn_andThen (RROn_frame_weaken _ (fr_sem_on_permit_unusedW adm hadm s)) ?_
  intro a t _ hframe
  refine RROn_getp fun p hp => ?_
  have hpid := findPermit_some_pid t pid p hp
  exact SFrame.trans hframe (frame_setPermit t { p with markedAsUsed := false } pid hpid)

theorem fr_impl_on_permit_blockedW (adm : Adm)
    (hadm : ∀ u, RROn (adm u) (SFrame none u)) (s : Sem) (pid : Nat) :
    RROn (impl_on_permit_blockedW adm s pid) (SFrame (some pid) s) := by
  unfold impl_on_permit_blockedW
  refine RROn_andThen (RROn_frame_weaken _ (fr_sem_on_permit_blockedW adm hadm s)) ?_
  intro a t _ hframe
  refine RROn_getp fun p hp => ?_
  have hpid := findPermit_some_pid t pid p hp
  exact SFrame.trans hframe (frame_setPermit t { p with markedAsBlocked := true } pid hpid)

theorem fr_impl_on_permit_unblocked (s : Sem) (pid : Nat) :
    RROn (impl_on_permit_unblocked s pid) (SFrame (some pid) s) := by
  unfold impl_on_permit_unblocked
  refine RROn_andThen (RROn_frame_weaken _ (fr_sem_on_permit_unblocked s)) ?_
  intro a t _ hframe
  refine RROn_getp fun p hp => ?_
  have hpid := findPermit_some_pid t pid p hp
  exact SFrame.trans hframe (frame_setPermit t { p with markedAsBlocked := false } pid hpid)

theorem fr_on_permit_activeW (adm : Adm)
    (hadm : ∀ u, RROn (adm u) (SFrame none u)) (s : Sem) (pid : Nat) :
    RROn (on_permit_activeW adm s pid) (SFrame (some pid) s) := by
  unfold on_permit_activeW
  refine RROn_getp fun p hp => ?_
  have hpid := findPermit_some_pid s pid p hp
  try dsimp only
  split
  · refine RROn_andThen (RROn_frame_trans
      (frame_setPermit s { p with state := PermitState.active_used } pid hpid)
      (fr_impl_on_permit_used _ pid)) ?_
    intro a t _ hframe
    refine RROn_getp fun p2 hp2 => ?_
    have hpid2 := findPermit_some_pid t pid p2 hp2
    split
    · refine RROn_frame_trans (SFrame.trans hframe
        (frame_setPermit t { p2 with state := PermitState.active_blocked } pid hpid2)) ?_
      exact fr_impl_on_permit_blockedW adm hadm _ pid
    · exact hframe
  · exact frame_setPermit s { p with state := PermitState.active_unused } pid hpid

theorem fr_on_permit_inactiveW (adm : Adm)
    (hadm : ∀ u, RROn (adm u) (SFrame none u)) (s : Sem) (pid : Nat) (st : PermitState) :
    RROn (on_permit_inactiveW adm s pid st) (SFrame (some pid) s) := by
  unfold on_permit_inactiveW
  refine RROn_getp fun p hp => ?_
  have hpid := findPermit_some_pid s pid p hp
  try dsimp only
  refine RROn_andThen ?_ ?_
  · split
    · refine RROn_frame_trans (frame_setPermit s { p with state := st } pid hpid) ?_
      exact fr_impl_on_permit_unblocked _ pid
    · exact frame_setPermit s { p with state := st } pid hpid
  · intro a t _ hframe
    refine RROn_getp fun p2 hp2 => ?_
    split
    · exact RROn_frame_trans hframe (fr_impl_on_permit_unusedW adm hadm t pid)
    · exact hframe

theorem fr_consume (s : Sem) (pid : Nat) (r : Resources) :
    RROn (consume s pid r) (SFrame (some pid) s) := by
  unfold consume
  try dsimp only
  split
  · refine RROn_getp fun p hp => ?_
    have hpid := findPermit_some_pid s pid p hp
    show SFrame (some pid) s _
    split
    · refine SFrame.trans
        (frame_setPermit s { p with oomKills := p.oomKills + 1 } pid hpid) ?_
      exact SFrame.of_eq rfl rfl rfl rfl rfl rfl rfl rfl rfl
    · exact frame_setPermit s { p with oomKills := p.oomKills + 1 } pid hpid
  · exact SFrame.of_eq rfl rfl rfl rfl rfl rfl rfl rfl rfl

theorem fr_impl_consume (s : Sem) (pid : Nat) (r : Resources) :
    RROn (impl_consume s pid r) (SFrame (some pid) s) := by
  unfold impl_consume
  refine RROn_andThen (fr_consume s pid r) ?_
  intro a t _ hframe
  refine RROn_getp fun p hp => ?_
  have hpid := findPermit_some_pid t pid p hp
  exact SFrame.trans hframe (frame_setPermit t { p with resources := p.resources + r } pid hpid)

theorem fr_signalW (adm : Adm)
    (hadm : ∀ u, RROn (adm u) (SFrame none u)) (s : Sem) (r : Resources) :
    RROn (signalW adm s r) (SFrame none s) := by
  unfold signalW
  refine RROn_frame_trans ?_ (hadm _)
  exact SFrame.of_eq rfl rfl rfl rfl rfl rfl rfl rfl rfl

theorem fr_impl_signalW (adm : Adm)
    (hadm : ∀ u, RROn (adm u) (SFrame none u)) (s : Sem) (pid : Nat) (r : Resources) :
    RROn (impl_signalW adm s pid r) (SFrame (some pid) s) := by
  unfold impl_signalW
  refine RROn_getp fun p hp => ?_
  have hpid := findPermit_some_pid s pid p hp
  refine RROn_frame_trans (frame_setPermit s { p with resources := p.resources - r } pid hpid) ?_
  exact RROn_frame_weaken _ (fr_signalW adm hadm _ r)

theorem fr_on_admissionW (adm : Adm)
    (hadm : ∀ u, RROn (adm u) (SFrame none u)) (s : Sem) (pid : Nat) :
    RROn (on_admissionW adm s pid) (SFrame (some pid) s) := by
  unfold on_admissionW
  refine RROn_getp fun p hp => ?_
  split
  · trivial
  · refine RROn_andThen (fr_on_permit_activeW adm hadm s pid) ?_
    intro a t _ hframe
    refine RROn_getp fun p1 hp1 => ?_
    refine RROn_andThen (RROn_frame_trans hframe (fr_impl_consume t pid _)) ?_
    intro b u _ hframe2
    refine RROn_getp fun p2 hp2 => ?_
    have hpid2 := findPermit_some_pid u pid p2 hp2
    exact SFrame.trans hframe2
      (frame_setPermit u { p2 with baseResourcesConsumed := true } pid hpid2)

theorem fr_on_granted_memoryW (adm : Adm)
    (hadm : ∀ u, RROn (adm u) (SFrame none u)) (s : Sem) (pid : Nat) :
    RROn (on_granted_memoryW adm s pid) (SFrame (some pid) s) := by
  unfold on_granted_memoryW
  refine RROn_getp fun p hp => ?_
  refine RROn_andThen ?_ ?_
  · split
    · exact fr_on_permit_activeW adm hadm s pid
    · exact SFrame.refl_self _ s
  · intro a t _ hframe
    refine RROn_getp fun p1 hp1 => ?_
    have hpid1 := findPermit_some_pid t pid p1 hp1
    refine RROn_frame_trans (SFrame.trans hframe
      (frame_setPermit t { p1 with requestedMemory := 0 } pid hpid1)) ?_
    exact fr_impl_consume _ pid _

theorem fr_on_register_as_inactiveW (adm : Adm)
    (hadm : ∀ u, RROn (adm u) (SFrame none u)) (s : Sem) (pid : Nat) :
    RROn (on_register_as_inactiveW adm s pid) (SFrame (some pid) s) := by
  unfold on_register_as_inactiveW
  refine RROn_getp fun p hp => ?_
  split
  · exact fr_on_permit_inactiveW adm hadm s pid PermitState.inactive
  · trivial

theorem fr_on_evictedW (adm : Adm)
    (hadm : ∀ u, RROn (adm u) (SFrame none u)) (s : Sem) (pid : Nat) :
    RROn (on_evictedW adm s pid) (SFrame (some pid) s) := by
  unfold on_evictedW
  refine RROn_getp fun p hp => ?_
  have hpid := findPermit_some_pid s pid p hp
  try dsimp only
  split
  · split
    · refine RROn_andThen (RROn_frame_trans
        (frame_setPermit s { p with state := PermitState.evicted } pid hpid)
        (fr_impl_signalW adm hadm _ pid _)) ?_
      intro a t _ hframe
      refine RROn_getp fun p2 hp2 => ?_
      have hpid2 := findPermit_some_pid t pid p2 hp2
      exact SFrame.trans hframe
        (frame_setPermit t { p2 with baseResourcesConsumed := false } pid hpid2)
    · exact frame_setPermit s { p with state := PermitState.evicted } pid hpid
  · trivial

theorem waitFront_mem (s : Sem) (e : WaitEntry) (h : waitFront s = some e) :
    e.pid ∈ waitPids s := by
  unfold waitFront at h
  unfold waitPids
  cases hm : s.memoryQueue with
  | cons a t =>
    rw [hm] at h
    injection h with he
    subst he
    simp [hm]
  | nil =>
    rw [hm] at h
    cases ha : s.admissionQueue with
    | nil =>
      rw [ha] at h
      simp at h
    | cons a t =>
      rw [ha] at h
      simp only [List.head?] at h
      injection h with he
      subst he
      simp [hm, ha]

theorem frame_popFront (ex : Option Nat) (s : Sem) : SFrame ex s (popFront s) := by
  unfold popFront
  cases hm : s.memoryQueue with
  | cons a t =>
    refine ⟨fun q _ _ => rfl, ?_, rfl, rfl, rfl, rfl, rfl, rfl⟩
    intro q hq
    simp only [waitPids, List.map_append, List.mem_append] at hq ⊢
    rw [hm]
    simp only [List.map_cons, List.mem_cons]
    rcases hq with h1 | h2
    · exact Or.inl (Or.inr h1)
    · exact Or.inr h2
  | nil =>
    refine ⟨fun q _ _ => rfl, ?_, rfl, rfl, rfl, rfl, rfl, rfl⟩
    intro q hq
    simp only [waitPids, List.map_append, List.mem_append] at hq ⊢
    rcases hq with h1 | h2
    · simp at h1
    · refine Or.inr ?_
      cases ha : s.admissionQueue with
      | nil =>
        rw [ha] at h2
        simp at h2
      | cons b bs =>
        rw [ha] at h2
        simp only [List.tail_cons] at h2
        simp only [List.map_cons, List.mem_cons]
        exact Or.inr h2

theorem frame_pushReady (ex : Option Nat) (s : Sem) (e : WaitEntry) :
    SFrame ex s (pushReady s e) :=
  SFrame.of_eq rfl rfl rfl rfl rfl rfl rfl rfl rfl

theorem frame_evict_bg (ex : Option Nat) (s : Sem) :
    SFrame ex s (evict_readers_in_background s) := by
  unfold evict_readers_in_background
  split
  · exact SFrame.refl_self ex s
  · exact SFrame.of_eq rfl rfl rfl rfl rfl rfl rfl rfl rfl

/-- maybe_admit_waiters satisfies the frame: it only touches wait-listed
permits, only pops wait-list entries, and leaves the inactive list, the
closed readers, the eviction and shed counters, the handle counter and
the semaphore identity alone. -/
theorem fr_mawF : ∀ (n : Nat) (s : Sem), RROn (mawF n s) (SFrame none s) := by
  intro n
  induction n with
  | zero =>
    intro s
    unfold mawF
    cases hw : waitFront s with
    | none => exact SFrame.refl_self none s
    | some e => trivial
  | succ m ih =>
    intro s
    unfold mawF
    cases hw : waitFront s with
    | none => exact SFrame.refl_self none s
    | some e =>
      have hmem : e.pid ∈ waitPids s := waitFront_mem s e hw
      refine RROn_getp fun p hp => ?_
      cases hca : can_admit_read s p with
      | maybe => exact frame_evict_bg none s
      | no => exact SFrame.refl_self none s
      | yes =>
        try dsimp only
        by_cases hwfm : p.state = PermitState.waiting_for_memory
        · rw [if_pos hwfm]
          have hg := fr_on_granted_memoryW (mawF m) ih { s with blessedPermit := some e.pid } e.pid
          cases hgr : on_granted_memoryW (mawF m) { s with blessedPermit := some e.pid } e.pid with
          | halt => trivial
          | oom t =>
            rw [hgr] at hg
            have hst : SFrame none s t := by
              refine SFrame.trans (SFrame.of_eq rfl rfl rfl rfl rfl rfl rfl rfl rfl : SFrame none s { s with blessedPermit := some e.pid }) ?_
              exact SFrame.strengthen hmem hg
            exact RROn_frame_trans (SFrame.trans hst (frame_popFront none t)) (ih (popFront t))
          | ok a t =>
            rw [hgr] at hg
            have hst : SFrame none s t := by
              refine SFrame.trans (SFrame.of_eq rfl rfl rfl rfl rfl rfl rfl rfl rfl : SFrame none s { s with blessedPermit := some e.pid }) ?_
              exact SFrame.strengthen hmem hg
            have hst1 : SFrame none s (if e.hasFunc then pushReady t e else t) := by
              split
              · exact SFrame.trans hst (frame_pushReady none t e)
              · exact hst
            exact RROn_frame_trans (SFrame.trans hst1 (frame_popFront none _)) (ih _)
        · rw [if_neg hwfm]
          have hg := fr_on_admissionW (mawF m) ih s e.pid
          cases hgr : on_admissionW (mawF m) s e.pid with
          | halt => trivial
          | oom t =>
            rw [hgr] at hg
            have hst : SFrame none s t := SFrame.strengthen hmem hg
            show RROn (mawF m (popFront t)) (SFrame none s)
            exact RROn_frame_trans (SFrame.trans hst (frame_popFront none t)) (ih (popFront t))
          | ok a t =>
            rw [hgr] at hg
            have hst : SFrame none s { t with stats := { t.stats with readsAdmitted := t.stats.readsAdmitted + 1 } } := by
              refine SFrame.trans (SFrame.strengthen hmem hg) ?_
              exact SFrame.of_eq rfl rfl rfl rfl rfl rfl rfl rfl rfl
            have hst1 : SFrame none s (if e.hasFunc then pushReady { t with stats := { t.stats with readsAdmitted := t.stats.readsAdmitted + 1 } } e else { t with stats := { t.stats with readsAdmitted := t.stats.readsAdmitted + 1 } }) := by
              split
              · exact SFrame.trans hst (frame_pushReady none _ e)
              · exact hst
            exact RROn_frame_trans (SFrame.trans hst1 (frame_popFront none _)) (ih _)

/-! ## C8: queue admission check -/

/-- C8: a waiter is accepted exactly when wait_list.size() +
ready_list.size() is below max_queue_length at the attempt: over the
limit the call fails immediately with the queue-overload error,
total_reads_shed_due_to_overload is incremented by one and the wait and
ready lists are untouched; under the limit the call never reports
overload, the shed counter is unchanged and the entry is appended to the
requested queue. -/
theorem claim_c8_enqueue_waiter (fuel : Nat) (s : Sem) (pid : Nat) (f : Bool) (w : WaitOn) :
    (s.maxQueueLength ≤ waitSize s + s.readyList.length →
      enqueue_waiter fuel s pid f w
        = RRes.ok false { s with stats := { s.stats with
            totalReadsShedDueToOverload := s.stats.totalReadsShedDueToOverload + 1 } }) ∧
    (waitSize s + s.readyList.length < s.maxQueueLength →
      ∀ v t, enqueue_waiter fuel s pid f w = RRes.ok v t →
        v = true ∧
        t.stats.totalReadsShedDueToOverload = s.stats.totalReadsShedDueToOverload ∧
        (w = WaitOn.admission → ∃ pre, t.admissionQueue = pre ++ [⟨pid, f⟩]) ∧
        (w = WaitOn.memory → ∃ pre, t.memoryQueue = pre ++ [⟨pid, f⟩])) := by
  constructor
  · intro hover
    unfold enqueue_waiter enqueue_waiterW check_queue_size
    rw [if_pos hover]
  · intro hunder v t hrun
    unfold enqueue_waiter enqueue_waiterW check_queue_size at hrun
    rw [if_neg (Nat.not_le_of_lt hunder)] at hrun
    cases w with
    | admission =>
      dsimp only at hrun
      cases hres : on_waiting_for_admissionW (mawF fuel) s pid with
      | halt =>
        rw [hres] at hrun
        cases hrun
      | oom u =>
        rw [hres] at hrun
        cases hrun
      | ok a u =>
        rw [hres] at hrun
        simp only [RRes.andThen] at hrun
        injection hrun with hv ht
        subst hv
        subst ht
        have hfr : SFrame (some pid) s u := by
          have := fr_on_permit_inactiveW (mawF fuel) (fr_mawF fuel) s pid
            PermitState.waiting_for_admission
          unfold on_waiting_for_admissionW at hres
          rw [hres] at this
          exact this
        refine ⟨rfl, hfr.shed, fun _ => ⟨u.admissionQueue, rfl⟩, fun hcases => ?_⟩
        cases hcases
    | memory =>
      dsimp only at hrun
      cases hres : on_waiting_for_memoryW (mawF fuel) s pid with
      | halt =>
        rw [hres] at hrun
        cases hrun
      | oom u =>
        rw [hres] at hrun
        cases hrun
      | ok a u =>
        rw [hres] at hrun
        simp only [RRes.andThen] at hrun
        injection hrun with hv ht
        subst hv
        subst ht
        have hfr : SFrame (some pid) s u := by
          have := fr_on_permit_inactiveW (mawF fuel) (fr_mawF fuel) s pid
            PermitState.waiting_for_memory
          unfold on_waiting_for_memoryW at hres
          rw [hres] at this
          exact this
        refine ⟨rfl, hfr.shed, fun hcases => ?_, fun _ => ⟨u.memoryQueue, rfl⟩⟩
        cases hcases

def c8Sem : Sem :=
  { semId := 0, initialResources := ⟨2, 100⟩, resources := ⟨2, 100⟩,
    serializeLimitMultiplier := 2, killLimitMultiplier := 4, maxQueueLength := 0,
    admissionQueue := [], memoryQueue := [], readyList := [], inactiveReads := [],
    nextIrId := 0, blessedPermit := none, evicting := false, permits := [],
    closedReaders := [], stats := zeroStats }

/-- C8 witness: with max_queue_length zero every enqueue attempt is shed:
the call fails with overload, the shed counter advances by one and
nothing else changes. -/
theorem claim_c8_witness :
    enqueue_waiter 1 c8Sem 0 false WaitOn.admission
      = RRes.ok false { c8Sem with stats := { c8Sem.stats with
          totalReadsShedDueToOverload := c8Sem.stats.totalReadsShedDueToOverload + 1 } } :=
  (claim_c8_enqueue_waiter 1 c8Sem 0 false WaitOn.admission).1 (by decide)

/-! ## Post-state lemmas: the exact permit record after each operation -/

theorem RROn_mono {α : Type} {r : RRes α} {P Q : Sem → Prop}
    (h : RROn r P) (himp : ∀ u, P u → Q u) : RROn r Q := by
  cases r with
  | ok a t => exact himp t h
  | oom t => exact himp t h
  | halt => trivial

theorem RROn_elim_ok {α : Type} {r : RRes α} {P : Sem → Prop}
    (h : RROn r P) {a : α} {t : Sem} (he : r = RRes.ok a t) : P t := by
  rw [he] at h
  exact h

theorem RRes_andThen_split {α β : Type} (r : RRes α) (f : α → Sem → RRes β) {Q : Sem → Prop}
    (hok : ∀ a t, r = RRes.ok a t → RROn (f a t) Q)
    (hoom : ∀ t, r = RRes.oom t → Q t) :
    RROn (r.andThen f) Q := by
  cases hr : r with
  | ok a t => exact hok a t hr
  | oom t => exact hoom t hr
  | halt => trivial

/-- maybe_admit_waiters never lets an OutOfMemory escape: the only throw
site inside it (the admission's consume) is caught by the loop body. -/
theorem mawF_no_oom : ∀ (n : Nat) (s t : Sem), mawF n s ≠ RRes.oom t := by
  intro n
  induction n with
  | zero =>
    intro s t h
    unfold mawF at h
    cases hw : waitFront s with
    | none =>
      rw [hw] at h
      cases h
    | some e =>
      rw [hw] at h
      cases h
  | succ m ih =>
    intro s t h
    unfold mawF at h
    cases hw : waitFront s with
    | none =>
      rw [hw] at h
      cases h
    | some e =>
      rw [hw] at h
      try dsimp only at h
      unfold getp at h
      cases hf : s.findPermit e.pid with
      | none =>
        rw [hf] at h
        try dsimp only at h
        cases h
      | some p =>
        rw [hf] at h
        try dsimp only at h
        cases hca : can_admit_read s p with
        | no =>
          rw [hca] at h
          try dsimp only at h
          cases h
        | maybe =>
          rw [hca] at h
          try dsimp only at h
          cases h
        | yes =>
          rw [hca] at h
          try dsimp only at h
          cases hstep : (if p.state = PermitState.waiting_for_memory then
              on_granted_memoryW (mawF m) { s with blessedPermit := some e.pid } e.pid
            else
              (on_admissionW (mawF m) s e.pid).andThen fun _ t =>
                RRes.ok () { t with stats := { t.stats with readsAdmitted := t.stats.readsAdmitted + 1 } }) with
          | halt =>
            rw [hstep] at h
            try dsimp only at h
            cases h
          | oom t0 =>
            rw [hstep] at h
            try dsimp only at h
            exact ih _ _ h
          | ok a t0 =>
            rw [hstep] at h
            try dsimp only at h
            exact ih _ _ h

/-- Post-state of an operation relative to permit pid: the permit's exact
record in the final state, together with the frame from the base state. -/
def PState (pid : Nat) (s : Sem) (x : PermitImpl) (u : Sem) : Prop :=
  u.findPermit pid = some x ∧ SFrame (some pid) s u

theorem ps_adm (adm : Adm) (hadm : ∀ u, RROn (adm u) (SFrame none u))
    (s : Sem) (pid : Nat) (q : PermitImpl)
    (hp : s.findPermit pid = some q) (hnw : pid ∉ waitPids s) :
    RROn (adm s) (PState pid s q) := by
  refine RROn_mono (hadm s) ?_
  intro u hfr
  refine ⟨?_, SFrame.weaken _ hfr⟩
  rw [hfr.permitsOutside pid (by simp) hnw]
  exact hp

theorem ps_impl_on_permit_used (s : Sem) (pid : Nat) (q : PermitImpl)
    (hp : s.findPermit pid = some q) :
    RROn (impl_on_permit_used s pid) (PState pid s { q with markedAsUsed := true }) := by
  unfold impl_on_permit_used
  refine RROn_getp fun p0 hp0 => ?_
  have hq : p0 = q := by
    rw [hp] at hp0
    injection hp0 with hqq
    exact hqq.symm
  subst hq
  have hpid := findPermit_some_pid s pid p0 hp
  constructor
  · refine findPermit_setPermit_eq (sem_on_permit_used s) p0 _ pid ?_ hpid
    exact hp
  · refine SFrame.trans ?_ (frame_setPermit (sem_on_permit_used s) { p0 with markedAsUsed := true } pid hpid)
    exact frame_sem_on_permit_used _ s

theorem ps_impl_on_permit_unblocked (s : Sem) (pid : Nat) (q : PermitImpl)
    (hp : s.findPermit pid = some q) :
    RROn (impl_on_permit_unblocked s pid) (PState pid s { q with markedAsBlocked := false }) := by
  unfold impl_on_permit_unblocked sem_on_permit_unblocked
  try dsimp only
  split
  · trivial
  · simp only [RRes.andThen]
    refine RROn_getp fun p0 hp0 => ?_
    have hp0' : s.findPermit pid = some p0 := hp0
    have hq : p0 = q := by
      rw [hp] at hp0'
      injection hp0' with hqq
      exact hqq.symm
    subst hq
    have hpid := findPermit_some_pid s pid p0 hp
    constructor
    · exact findPermit_setPermit_eq _ p0 _ pid hp0 hpid
    · refine SFrame.trans ?_ (frame_setPermit _ { p0 with markedAsBlocked := false } pid hpid)
      exact SFrame.of_eq rfl rfl rfl rfl rfl rfl rfl rfl rfl

theorem ps_sem_on_permit_unusedW (adm : Adm) (hadm : ∀ u, RROn (adm u) (SFrame none u))
    (s : Sem) (pid : Nat) (q : PermitImpl)
    (hp : s.findPermit pid = some q) (hnw : pid ∉ waitPids s) :
    RROn (sem_on_permit_unusedW adm s) (PState pid s q) := by
  unfold sem_on_permit_unusedW
  try dsimp only
  split
  · trivial
  · split
    · trivial
    · refine RROn_mono (ps_adm adm hadm _ pid q hp hnw) ?_
      intro u hu
      refine ⟨hu.1, SFrame.trans ?_ hu.2⟩
      exact SFrame.of_eq rfl rfl rfl rfl rfl rfl rfl rfl rfl

theorem ps_sem_on_permit_blockedW (adm : Adm) (hadm : ∀ u, RROn (adm u) (SFrame none u))
    (s : Sem) (pid : Nat) (q : PermitImpl)
    (hp : s.findPermit pid = some q) (hnw : pid ∉ waitPids s) :
    RROn (sem_on_permit_blockedW adm s) (PState pid s q) := by
  unfold sem_on_permit_blockedW
  try dsimp only
  split
  · trivial
  · refine RROn_mono (ps_adm adm hadm _ pid q hp hnw) ?_
    intro u hu
    refine ⟨hu.1, SFrame.trans ?_ hu.2⟩
    exact SFrame.of_eq rfl rfl rfl rfl rfl rfl rfl rfl rfl

theorem sem_on_permit_unusedW_no_oom (adm : Adm) (hnoom : ∀ u t, adm u ≠ RRes.oom t)
    (s t : Sem) : sem_on_permit_unusedW adm s ≠ RRes.oom t := by
  unfold sem_on_permit_unusedW
  try dsimp only
  split
  · intro h
    cases h
  · split
    · intro h
      cases h
    · exact hnoom _ t

theorem sem_on_permit_blockedW_no_oom (adm : Adm) (hnoom : ∀ u t, adm u ≠ RRes.oom t)
    (s t : Sem) : sem_on_permit_blockedW adm s ≠ RRes.oom t := by
  unfold sem_on_permit_blockedW
  try dsimp only
  split
  · intro h
    cases h
  · exact hnoom _ t

theorem ps_impl_on_permit_unusedW (adm : Adm) (hadm : ∀ u, RROn (adm u) (SFrame none u))
    (hnoom : ∀ u t, adm u ≠ RRes.oom t)
    (s : Sem) (pid : Nat) (q : PermitImpl)
    (hp : s.findPermit pid = some q) (hnw : pid ∉ waitPids s) :
    RROn (impl_on_permit_unusedW adm s pid) (PState pid s { q with markedAsUsed := false }) := by
  unfold impl_on_permit_unusedW
  refine RRes_andThen_split _ _ ?_ ?_
  swap
  · intro t ht
    exact absurd ht (sem_on_permit_unusedW_no_oom adm hnoom s t)
  intro a t hok
  have ht : PState pid s q t :=
    RROn_elim_ok (ps_sem_on_permit_unusedW adm hadm s pid q hp hnw) hok
  refine RROn_getp fun p0 hp0 => ?_
  have hq : p0 = q := by
    rw [ht.1] at hp0
    injection hp0 with hqq
    exact hqq.symm
  subst hq
  have hpid := findPermit_some_pid t pid p0 hp0
  constructor
  · exact findPermit_setPermit_eq t p0 _ pid hp0 hpid
  · exact SFrame.trans ht.2 (frame_setPermit t { p0 with markedAsUsed := false } pid hpid)

theorem ps_impl_on_permit_blockedW (adm : Adm) (hadm : ∀ u, RROn (adm u) (SFrame none u))
    (hnoom : ∀ u t, adm u ≠ RRes.oom t)
    (s : Sem) (pid : Nat) (q : PermitImpl)
    (hp : s.findPermit pid = some q) (hnw : pid ∉ waitPids s) :
    RROn (impl_on_permit_blockedW adm s pid) (PState pid s { q with markedAsBlocked := true }) := by
  unfold impl_on_permit_blockedW
  refine RRes_andThen_split _ _ ?_ ?_
  swap
  · intro t ht
    exact absurd ht (sem_on_permit_blockedW_no_oom adm hnoom s t)
  intro a t hok
  have ht : PState pid s q t :=
    RROn_elim_ok (ps_sem_on_permit_blockedW adm hadm s pid q hp hnw) hok
  refine RROn_getp fun p0 hp0 => ?_
  have hq : p0 = q := by
    rw [ht.1] at hp0
    injection hp0 with hqq
    exact hqq.symm
  subst hq
  have hpid := findPermit_some_pid t pid p0 hp0
  constructor
  · exact findPermit_setPermit_eq t p0 _ pid hp0 hpid
  · exact SFrame.trans ht.2 (frame_setPermit t { p0 with markedAsBlocked := true } pid hpid)

theorem ps_signalW (adm : Adm) (hadm : ∀ u, RROn (adm u) (SFrame none u))
    (s : Sem) (pid : Nat) (q : PermitImpl) (r : Resources)
    (hp : s.findPermit pid = some q) (hnw : pid ∉ waitPids s) :
    RROn (signalW adm s r) (PState pid s q) := by
  unfold signalW
  refine RROn_mono (ps_adm adm hadm _ pid q hp hnw) ?_
  intro u hu
  refine ⟨hu.1, SFrame.trans ?_ hu.2⟩
  exact SFrame.of_eq rfl rfl rfl rfl rfl rfl rfl rfl rfl

theorem SFrame.not_mem_waitPids {ex : Option Nat} {s t : Sem} (h : SFrame ex s t)
    {pid : Nat} (hnw : pid ∉ waitPids s) : pid ∉ waitPids t :=
  fun hm => hnw (h.waitSub pid hm)

theorem PState.compose {pid : Nat} {s0 s1 : Sem} {x : PermitImpl} {u : Sem}
    (h01 : SFrame (some pid) s0 s1) (h : PState pid s1 x u) : PState pid s0 x u :=
  ⟨h.1, SFrame.trans h01 h.2⟩

theorem RROn_PState_compose {pid : Nat} {s0 s1 : Sem} {x : PermitImpl}
    (h01 : SFrame (some pid) s0 s1) {α : Type} {r : RRes α}
    (h : RROn r (PState pid s1 x)) : RROn r (PState pid s0 x) :=
  RROn_mono h fun _ hu => PState.compose h01 hu

theorem impl_on_permit_used_no_oom (s : Sem) (pid : Nat) (t : Sem) :
    impl_on_permit_used s pid ≠ RRes.oom t := by
  unfold impl_on_permit_used getp
  cases s.findPermit pid with
  | none =>
    intro h
    cases h
  | some p =>
    intro h
    cases h

theorem impl_on_permit_unblocked_no_oom (s : Sem) (pid : Nat) (t : Sem) :
    impl_on_permit_unblocked s pid ≠ RRes.oom t := by
  unfold impl_on_permit_unblocked sem_on_permit_unblocked
  try dsimp only
  split
  · intro h
    cases h
  · simp only [RRes.andThen]
    unfold getp
    split
    · intro h
      cases h
    · intro h
      cases h

theorem impl_on_permit_unusedW_no_oom (adm : Adm) (hnoom : ∀ u t, adm u ≠ RRes.oom t)
    (s : Sem) (pid : Nat) (t : Sem) : impl_on_permit_unusedW adm s pid ≠ RRes.oom t := by
  unfold impl_on_permit_unusedW
  intro h
  cases hres : sem_on_permit_unusedW adm s with
  | halt =>
    rw [hres] at h
    cases h
  | oom u => exact sem_on_permit_unusedW_no_oom adm hnoom s u hres
  | ok a u =>
    rw [hres] at h
    simp only [RRes.andThen] at h
    unfold getp at h
    cases hfp : u.findPermit pid with
    | none =>
      rw [hfp] at h
      cases h
    | some p =>
      rw [hfp] at h
      cases h

theorem impl_on_permit_blockedW_no_oom (adm : Adm) (hnoom : ∀ u t, adm u ≠ RRes.oom t)
    (s : Sem) (pid : Nat) (t : Sem) : impl_on_permit_blockedW adm s pid ≠ RRes.oom t := by
  unfold impl_on_permit_blockedW
  intro h
  cases hres : sem_on_permit_blockedW adm s with
  | halt =>
    rw [hres] at h
    cases h
  | oom u => exact sem_on_permit_blockedW_no_oom adm hnoom s u hres
  | ok a u =>
    rw [hres] at h
    simp only [RRes.andThen] at h
    unfold getp at h
    cases hfp : u.findPermit pid with
    | none =>
      rw [hfp] at h
      cases h
    | some p =>
      rw [hfp] at h
      cases h

/-- The permit record on_permit_active leaves behind, as a function of
the branch counters. -/
def activeResult (q : PermitImpl) : PermitImpl :=
  if q.usedBranches ≠ 0 then
    (if q.blockedBranches ≠ 0 then
      { q with state := PermitState.active_blocked, markedAsUsed := true, markedAsBlocked := true }
    else { q with state := PermitState.active_used, markedAsUsed := true })
  else { q with state := PermitState.active_unused }

theorem ps_on_permit_activeW (adm : Adm) (hadm : ∀ u, RROn (adm u) (SFrame none u))
    (hnoom : ∀ u t, adm u ≠ RRes.oom t)
    (s : Sem) (pid : Nat) (q : PermitImpl)
    (hp : s.findPermit pid = some q) (hnw : pid ∉ waitPids s) :
    RROn (on_permit_activeW adm s pid) (PState pid s (activeResult q)) := by
  unfold on_permit_activeW activeResult
  refine RROn_getp fun p0 hp0 => ?_
  have hq : p0 = q := by
    rw [hp] at hp0
    injection hp0 with hqq
    exact hqq.symm
  subst hq
  have hpid := findPermit_some_pid s pid p0 hp
  by_cases hu : p0.usedBranches ≠ 0
  · rw [if_pos hu, if_pos hu]
    have hfr1 : SFrame (some pid) s (s.setPermit { p0 with state := PermitState.active_used }) :=
      frame_setPermit s { p0 with state := PermitState.active_used } pid hpid
    have hp1 : (s.setPermit { p0 with state := PermitState.active_used }).findPermit pid
        = some { p0 with state := PermitState.active_used } :=
      findPermit_setPermit_eq s p0 _ pid hp hpid
    refine RRes_andThen_split _ _ ?_ ?_
    swap
    · intro t ht
      exact absurd ht (impl_on_permit_used_no_oom _ pid t)
    intro a t hok
    have ht : PState pid s { p0 with state := PermitState.active_used, markedAsUsed := true } t := by
      refine PState.compose hfr1 ?_
      exact RROn_elim_ok (ps_impl_on_permit_used _ pid _ hp1) hok
    refine RROn_getp fun p2 hp2 => ?_
    have hq2 : p2 = { p0 with state := PermitState.active_used, markedAsUsed := true } := by
      rw [ht.1] at hp2
      injection hp2 with hqq
      exact hqq.symm
    subst hq2
    try dsimp only
    by_cases hb : p0.blockedBranches ≠ 0
    · rw [if_pos hb, if_pos hb]
      have hpid2 : (PermitImpl.pid { p0 with state := PermitState.active_blocked, markedAsUsed := true }) = pid := hpid
      have hfr2 : SFrame (some pid) t (t.setPermit { p0 with state := PermitState.active_blocked, markedAsUsed := true }) :=
        frame_setPermit t { p0 with state := PermitState.active_blocked, markedAsUsed := true } pid hpid
      have hp2' : (t.setPermit { p0 with state := PermitState.active_blocked, markedAsUsed := true }).findPermit pid
          = some { p0 with state := PermitState.active_blocked, markedAsUsed := true } :=
        findPermit_setPermit_eq t _ _ pid ht.1 hpid
      refine RROn_PState_compose (SFrame.trans ht.2 hfr2) ?_
      have hnw2 : pid ∉ waitPids (t.setPermit { p0 with state := PermitState.active_blocked, markedAsUsed := true }) :=
        SFrame.not_mem_waitPids (SFrame.trans ht.2 hfr2) hnw
      exact ps_impl_on_permit_blockedW adm hadm hnoom _ pid _ hp2' hnw2
    · rw [if_neg hb, if_neg hb]
      exact ht
  · rw [if_neg hu, if_neg hu]
    exact ⟨findPermit_setPermit_eq s p0 _ pid hp hpid,
      frame_setPermit s { p0 with state := PermitState.active_unused } pid hpid⟩

theorem ps_on_permit_inactiveW (adm : Adm) (hadm : ∀ u, RROn (adm u) (SFrame none u))
    (hnoom : ∀ u t, adm u ≠ RRes.oom t)
    (s : Sem) (pid : Nat) (st : PermitState) (q : PermitImpl)
    (hp : s.findPermit pid = some q) (hnw : pid ∉ waitPids s) :
    RROn (on_permit_inactiveW adm s pid st)
      (PState pid s { q with state := st, markedAsUsed := false, markedAsBlocked := false }) := by
  unfold on_permit_inactiveW
  refine RROn_getp fun p0 hp0 => ?_
  have hq : p0 = q := by
    rw [hp] at hp0
    injection hp0 with hqq
    exact hqq.symm
  subst hq
  have hpid := findPermit_some_pid s pid p0 hp
  try dsimp only
  have hfrB : SFrame (some pid) s (s.setPermit { p0 with state := st }) :=
    frame_setPermit s { p0 with state := st } pid hpid
  have hpB : (s.setPermit { p0 with state := st }).findPermit pid = some { p0 with state := st } :=
    findPermit_setPermit_eq s p0 _ pid hp hpid
  refine RRes_andThen_split _ _ ?_ ?_
  swap
  · intro t ht
    by_cases hmb : p0.markedAsBlocked = true
    · rw [if_pos hmb] at ht
      exact absurd ht (impl_on_permit_unblocked_no_oom _ pid t)
    · rw [if_neg hmb] at ht
      cases ht
  · intro a t hok
    have hPt : PState pid s { p0 with state := st, markedAsBlocked := false } t := by
      by_cases hmb : p0.markedAsBlocked = true
      · rw [if_pos hmb] at hok
        exact PState.compose hfrB (RROn_elim_ok (ps_impl_on_permit_unblocked _ pid _ hpB) hok)
      · rw [if_neg hmb] at hok
        rw [Bool.not_eq_true] at hmb
        injection hok with _ hts
        subst hts
        have hrec : ({ p0 with state := st } : PermitImpl)
            = { p0 with state := st, markedAsBlocked := false } := by
          rw [← hmb]
        rw [← hrec]
        exact ⟨hpB, hfrB⟩
    refine RROn_getp fun p2 hp2 => ?_
    have hq2 : p2 = { p0 with state := st, markedAsBlocked := false } := by
      rw [hPt.1] at hp2
      injection hp2 with hqq
      exact hqq.symm
    subst hq2
    try dsimp only
    by_cases hmu : p0.markedAsUsed = true
    · rw [if_pos hmu]
      refine RROn_PState_compose hPt.2 ?_
      have hnw2 : pid ∉ waitPids t := SFrame.not_mem_waitPids hPt.2 hnw
      exact ps_impl_on_permit_unusedW adm hadm hnoom t pid _ hPt.1 hnw2
    · rw [if_neg hmu]
      rw [Bool.not_eq_true] at hmu
      have hrec : ({ p0 with state := st, markedAsBlocked := false } : PermitImpl)
          = { p0 with state := st, markedAsUsed := false, markedAsBlocked := false } := by
        rw [← hmu]
      rw [← hrec]
      exact hPt

theorem ps_on_register_as_inactiveW (adm : Adm) (hadm : ∀ u, RROn (adm u) (SFrame none u))
    (hnoom : ∀ u t, adm u ≠ RRes.oom t)
    (s : Sem) (pid : Nat) (q : PermitImpl)
    (hp : s.findPermit pid = some q) (hnw : pid ∉ waitPids s) :
    RROn (on_register_as_inactiveW adm s pid)
      (PState pid s { q with state := PermitState.inactive, markedAsUsed := false, markedAsBlocked := false }) := by
  unfold on_register_as_inactiveW
  refine RROn_getp fun p0 hp0 => ?_
  have hq : p0 = q := by
    rw [hp] at hp0
    injection hp0 with hqq
    exact hqq.symm
  subst hq
  split
  · exact ps_on_permit_inactiveW adm hadm hnoom s pid PermitState.inactive p0 hp hnw
  · trivial

theorem ps_on_unregister_as_inactiveW (adm : Adm) (hadm : ∀ u, RROn (adm u) (SFrame none u))
    (hnoom : ∀ u t, adm u ≠ RRes.oom t)
    (s : Sem) (pid : Nat) (q : PermitImpl)
    (hp : s.findPermit pid = some q) (hnw : pid ∉ waitPids s) :
    RROn (on_unregister_as_inactiveW adm s pid) (PState pid s (activeResult q)) := by
  unfold on_unregister_as_inactiveW
  refine RROn_getp fun p0 hp0 => ?_
  have hq : p0 = q := by
    rw [hp] at hp0
    injection hp0 with hqq
    exact hqq.symm
  subst hq
  split
  · exact ps_on_permit_activeW adm hadm hnoom s pid p0 hp hnw
  · trivial

theorem impl_signalW_no_oom (adm : Adm) (hnoom : ∀ u t, adm u ≠ RRes.oom t)
    (s : Sem) (pid : Nat) (r : Resources) (t : Sem) :
    impl_signalW adm s pid r ≠ RRes.oom t := by
  unfold impl_signalW getp signalW
  cases hfp : s.findPermit pid with
  | none =>
    intro h
    cases h
  | some p => exact hnoom _ t

theorem ps_impl_signalW (adm : Adm) (hadm : ∀ u, RROn (adm u) (SFrame none u))
    (s : Sem) (pid : Nat) (q : PermitImpl) (r : Resources)
    (hp : s.findPermit pid = some q) (hnw : pid ∉ waitPids s) :
    RROn (impl_signalW adm s pid r) (PState pid s { q with resources := q.resources - r }) := by
  unfold impl_signalW
  refine RROn_getp fun p0 hp0 => ?_
  have hq : p0 = q := by
    rw [hp] at hp0
    injection hp0 with hqq
    exact hqq.symm
  subst hq
  have hpid := findPermit_some_pid s pid p0 hp
  have hfr : SFrame (some pid) s (s.setPermit { p0 with resources := p0.resources - r }) :=
    frame_setPermit s { p0 with resources := p0.resources - r } pid hpid
  refine RROn_PState_compose hfr ?_
  refine ps_signalW adm hadm _ pid _ r ?_ ?_
  · exact findPermit_setPermit_eq s p0 _ pid hp hpid
  · exact SFrame.not_mem_waitPids hfr hnw

/-- The permit record on_evicted leaves behind. -/
def evictResult (q : PermitImpl) : PermitImpl :=
  if q.baseResourcesConsumed then
    { q with state := PermitState.evicted, resources := q.resources - q.baseResources, baseResourcesConsumed := false }
  else { q with state := PermitState.evicted }

theorem ps_on_evictedW (adm : Adm) (hadm : ∀ u, RROn (adm u) (SFrame none u))
    (hnoom : ∀ u t, adm u ≠ RRes.oom t)
    (s : Sem) (pid : Nat) (q : PermitImpl)
    (hp : s.findPermit pid = some q) (hnw : pid ∉ waitPids s) :
    RROn (on_evictedW adm s pid) (PState pid s (evictResult q)) := by
  unfold on_evictedW evictResult
  refine RROn_getp fun p0 hp0 => ?_
  have hq : p0 = q := by
    rw [hp] at hp0
    injection hp0 with hqq
    exact hqq.symm
  subst hq
  have hpid := findPermit_some_pid s pid p0 hp
  try dsimp only
  by_cases hst : p0.state = PermitState.inactive
  · rw [if_pos hst]
    have hfrE : SFrame (some pid) s (s.setPermit { p0 with state := PermitState.evicted }) :=
      frame_setPermit s { p0 with state := PermitState.evicted } pid hpid
    have hpE : (s.setPermit { p0 with state := PermitState.evicted }).findPermit pid
        = some { p0 with state := PermitState.evicted } :=
      findPermit_setPermit_eq s p0 _ pid hp hpid
    by_cases hbc : p0.baseResourcesConsumed = true
    · rw [if_pos hbc, if_pos hbc]
      refine RRes_andThen_split _ _ ?_ ?_
      swap
      · intro t ht
        exact absurd ht (impl_signalW_no_oom adm hnoom _ pid _ t)
      intro a t hok
      have hPt : PState pid s
          { p0 with state := PermitState.evicted, resources := p0.resources - p0.baseResources } t := by
        refine PState.compose hfrE ?_
        exact RROn_elim_ok (ps_impl_signalW adm hadm _ pid _ _ hpE
          (SFrame.not_mem_waitPids hfrE hnw)) hok
      refine RROn_getp fun p2 hp2 => ?_
      have hq2 : p2 = { p0 with state := PermitState.evicted, resources := p0.resources - p0.baseResources } := by
        rw [hPt.1] at hp2
        injection hp2 with hqq
        exact hqq.symm
      subst hq2
      have hpid2 := findPermit_some_pid t pid _ hPt.1
      refine ⟨findPermit_setPermit_eq t _ { p0 with state := PermitState.evicted, resources := p0.resources - p0.baseResources, baseResourcesConsumed := false } pid hPt.1 hpid2, ?_⟩
      exact SFrame.trans hPt.2 (frame_setPermit t { p0 with state := PermitState.evicted, resources := p0.resources - p0.baseResources, baseResourcesConsumed := false } pid hpid2)
    · rw [if_neg hbc, if_neg hbc]
      exact ⟨hpE, hfrE⟩
  · rw [if_neg hst]
    trivial

/-! ## C4: register_inactive_read -/

theorem waitFront_none_of (s : Sem) (h1 : s.admissionQueue = []) (h2 : s.memoryQueue = []) :
    waitFront s = none := by
  unfold waitFront
  rw [h2, h1]
  rfl

theorem mawF_front_none (n : Nat) (s : Sem) (h : waitFront s = none) :
    mawF n s = RRes.ok () s := by
  unfold mawF
  rw [h]

theorem mawF_empty_inv (n : Nat) {Z : Sem} {a : Unit} {t : Sem}
    (h : mawF n Z = RRes.ok a t)
    (hqa : Z.admissionQueue = []) (hqm : Z.memoryQueue = []) : t = Z := by
  rw [mawF_front_none n Z (waitFront_none_of Z hqa hqm)] at h
  injection h with _ h2
  exact h2.symm

theorem on_evictedW_resources (n : Nat) (s : Sem) (pid : Nat) (q : PermitImpl)
    (hp : s.findPermit pid = some q) (hst : q.state = PermitState.inactive)
    (hbc : q.baseResourcesConsumed = true)
    (hqa : s.admissionQueue = []) (hqm : s.memoryQueue = []) :
    ∀ (a : Unit) (u : Sem), on_evictedW (mawF n) s pid = RRes.ok a u →
      u.resources = s.resources + q.baseResources := by
  intro a u heq
  have hpid := findPermit_some_pid s pid q hp
  unfold on_evictedW getp at heq
  rw [hp] at heq
  try dsimp only at heq
  rw [if_pos hst, if_pos hbc] at heq
  unfold impl_signalW getp at heq
  rw [findPermit_setPermit_eq s q { q with state := PermitState.evicted } pid hp hpid] at heq
  try dsimp only at heq
  unfold signalW at heq
  cases hmaw : mawF n { (s.setPermit { q with state := PermitState.evicted }).setPermit { q with state := PermitState.evicted, resources := q.resources - q.baseResources } with resources := ((s.setPermit { q with state := PermitState.evicted }).setPermit { q with state := PermitState.evicted, resources := q.resources - q.baseResources }).resources + q.baseResources } with
  | halt =>
    rw [hmaw] at heq
    simp only [RRes.andThen] at heq
    cases heq
  | oom t =>
    exact absurd hmaw (mawF_no_oom n _ t)
  | ok b t =>
    rw [hmaw] at heq
    simp only [RRes.andThen] at heq
    have ht : t = { (s.setPermit { q with state := PermitState.evicted }).setPermit { q with state := PermitState.evicted, resources := q.resources - q.baseResources } with resources := ((s.setPermit { q with state := PermitState.evicted }).setPermit { q with state := PermitState.evicted, resources := q.resources - q.baseResources }).resources + q.baseResources } := mawF_empty_inv n hmaw hqa hqm
    subst ht
    try unfold getp at heq
    have hfz : Sem.findPermit { (s.setPermit { q with state := PermitState.evicted }).setPermit { q with state := PermitState.evicted, resources := q.resources - q.baseResources } with resources := ((s.setPermit { q with state := PermitState.evicted }).setPermit { q with state := PermitState.evicted, resources := q.resources - q.baseResources }).resources + q.baseResources } pid = some { q with state := PermitState.evicted, resources := q.resources - q.baseResources } :=
      findPermit_setPermit_eq (s.setPermit { q with state := PermitState.evicted }) { q with state := PermitState.evicted } { q with state := PermitState.evicted, resources := q.resources - q.baseResources } pid
        (findPermit_setPermit_eq s q { q with state := PermitState.evicted } pid hp hpid) hpid
    rw [hfz] at heq
    try dsimp only at heq
    injection heq with _ hu
    subst hu
    rfl

/-- C4: register_inactive_read caches the reader exactly when, at the
branch point (after the permit is parked), the wait list is empty and
memory is available: then the reader is appended to the inactive list and
a valid handle is returned.  Otherwise the permit is evicted on the spot:
its state becomes evicted, its consumed base resources are given back
(the permit's tally drops by base and, when no waiter absorbs them, the
semaphore's pool grows by base), permit_based_evictions is incremented by
one, the reader is closed in the background and an empty handle is
returned. -/
theorem claim_c4_register_inactive_read (fuel : Nat) (s s1 sF : Sem) (reader : Reader)
    (h : Option IRHandle) (p : PermitImpl)
    (hp : s.findPermit reader.pid = some p)
    (hnw : reader.pid ∉ waitPids s)
    (hreg : on_register_as_inactiveW (mawF fuel) s reader.pid = RRes.ok () s1)
    (hrun : register_inactive_read fuel s reader = RRes.ok h sF) :
    (waitSize s1 = 0 ∧ 0 < s1.resources.memory →
      h = some ⟨s1.semId, s1.nextIrId⟩ ∧
      sF = { s1 with
              inactiveReads := s1.inactiveReads ++ [⟨s1.nextIrId, reader⟩],
              nextIrId := s1.nextIrId + 1,
              stats := { s1.stats with inactiveReads := s1.stats.inactiveReads + 1 } }) ∧
    (¬ (waitSize s1 = 0 ∧ 0 < s1.resources.memory) →
      h = none ∧
      (sF.findPermit reader.pid).map PermitImpl.state = some PermitState.evicted ∧
      (sF.findPermit reader.pid).map PermitImpl.baseResourcesConsumed = some false ∧
      (p.baseResourcesConsumed = true →
        (sF.findPermit reader.pid).map PermitImpl.resources = some (p.resources - p.baseResources)) ∧
      sF.stats.permitBasedEvictions = s1.stats.permitBasedEvictions + 1 ∧
      sF.closedReaders = s1.closedReaders ++ [reader] ∧
      (s1.admissionQueue = [] → s1.memoryQueue = [] → p.baseResourcesConsumed = true →
        sF.resources = s1.resources + p.baseResources)) := by
  have hPS : PState reader.pid s
      { p with state := PermitState.inactive, markedAsUsed := false, markedAsBlocked := false } s1 :=
    RROn_elim_ok (ps_on_register_as_inactiveW (mawF fuel) (fr_mawF fuel) (mawF_no_oom fuel)
      s reader.pid p hp hnw) hreg
  have hnw1 : reader.pid ∉ waitPids s1 := SFrame.not_mem_waitPids hPS.2 hnw
  unfold register_inactive_read register_inactive_readW at hrun
  rw [hreg] at hrun
  simp only [RRes.andThen] at hrun
  constructor
  · intro hcond
    rw [if_pos hcond] at hrun
    injection hrun with h1 h2
    exact ⟨h1.symm, h2.symm⟩
  · intro hcond
    rw [if_neg hcond] at hrun
    cases hev : on_evictedW (mawF fuel) s1 reader.pid with
    | halt =>
      rw [hev] at hrun
      cases hrun
    | oom t =>
      rw [hev] at hrun
      simp only [RRes.andThen] at hrun
      cases hrun
    | ok a s2 =>
      rw [hev] at hrun
      simp only [RRes.andThen] at hrun
      injection hrun with hh hsF
      have hPS2 : PState reader.pid s1
          (evictResult { p with state := PermitState.inactive, markedAsUsed := false, markedAsBlocked := false }) s2 :=
        RROn_elim_ok (ps_on_evictedW (mawF fuel) (fr_mawF fuel) (mawF_no_oom fuel)
          s1 reader.pid _ hPS.1 hnw1) hev
      have hfind : sF.findPermit reader.pid
          = some (evictResult { p with state := PermitState.inactive, markedAsUsed := false, markedAsBlocked := false }) := by
        rw [← hsF]
        exact hPS2.1
      refine ⟨hh.symm, ?_, ?_, ?_, ?_, ?_, ?_⟩
      · rw [hfind]
        unfold evictResult
        split
        · rfl
        · rfl
      · rw [hfind]
        unfold evictResult
        split
        · rfl
        · rename_i hnb
          rw [Bool.not_eq_true] at hnb
          simp only [Option.map_some]
          rw [show PermitImpl.baseResourcesConsumed { p with state := PermitState.inactive, markedAsUsed := false, markedAsBlocked := false } = false from hnb]
          rfl
      · intro hbc
        rw [hfind]
        unfold evictResult
        rw [if_pos (show PermitImpl.baseResourcesConsumed { p with state := PermitState.inactive, markedAsUsed := false, markedAsBlocked := false } = true from hbc)]
        rfl
      · rw [← hsF]
        show s2.stats.permitBasedEvictions + 1 = s1.stats.permitBasedEvictions + 1
        rw [hPS2.2.pbev]
      · rw [← hsF]
        show s2.closedReaders ++ [reader] = s1.closedReaders ++ [reader]
        rw [hPS2.2.closedR]
      · intro hqa hqm hbc
        rw [← hsF]
        show s2.resources = s1.resources + p.baseResources
        exact on_evictedW_resources fuel s1 reader.pid _ hPS.1 rfl hbc hqa hqm a s2 hev

def c4wP : PermitImpl :=
  { pid := 0, baseResources := ⟨1, 10⟩, baseResourcesConsumed := true,
    resources := ⟨1, 10⟩, state := PermitState.active_unused, usedBranches := 0,
    markedAsUsed := false, blockedBranches := 0, markedAsBlocked := false,
    requestedMemory := 0, oomKills := 0 }

def c4wSem : Sem :=
  { semId := 0, initialResources := ⟨2, 100⟩, resources := ⟨1, -5⟩,
    serializeLimitMultiplier := 2, killLimitMultiplier := 4, maxQueueLength := 4,
    admissionQueue := [], memoryQueue := [], readyList := [], inactiveReads := [],
    nextIrId := 0, blessedPermit := none, evicting := false, permits := [c4wP],
    closedReaders := [], stats := zeroStats }

def c4wReader : Reader := ⟨7, 0⟩

def c4wS1 : Sem := { c4wSem with permits := [{ c4wP with state := PermitState.inactive }] }

def c4wSF : Sem :=
  { c4wSem with
      resources := ⟨2, 5⟩,
      permits := [{ c4wP with state := PermitState.evicted, resources := ⟨0, 0⟩, baseResourcesConsumed := false }],
      closedReaders := [c4wReader],
      stats := { zeroStats with permitBasedEvictions := 1 } }

/-- C4 witness: with over-committed memory (available -5) and no waiters,
registering the reader takes the eviction branch: empty handle, permit
evicted with its base refunded, one permit-based eviction counted, reader
closed in the background. -/
theorem claim_c4_witness :
    (waitSize c4wS1 = 0 ∧ 0 < c4wS1.resources.memory →
      (none : Option IRHandle) = some ⟨c4wS1.semId, c4wS1.nextIrId⟩ ∧
      c4wSF = { c4wS1 with
              inactiveReads := c4wS1.inactiveReads ++ [⟨c4wS1.nextIrId, c4wReader⟩],
              nextIrId := c4wS1.nextIrId + 1,
              stats := { c4wS1.stats with inactiveReads := c4wS1.stats.inactiveReads + 1 } }) ∧
    (¬ (waitSize c4wS1 = 0 ∧ 0 < c4wS1.resources.memory) →
      (none : Option IRHandle) = none ∧
      (c4wSF.findPermit c4wReader.pid).map PermitImpl.state = some PermitState.evicted ∧
      (c4wSF.findPermit c4wReader.pid).map PermitImpl.baseResourcesConsumed = some false ∧
      (c4wP.baseResourcesConsumed = true →
        (c4wSF.findPermit c4wReader.pid).map PermitImpl.resources = some (c4wP.resources - c4wP.baseResources)) ∧
      c4wSF.stats.permitBasedEvictions = c4wS1.stats.permitBasedEvictions + 1 ∧
      c4wSF.closedReaders = c4wS1.closedReaders ++ [c4wReader] ∧
      (c4wS1.admissionQueue = [] → c4wS1.memoryQueue = [] → c4wP.baseResourcesConsumed = true →
        c4wSF.resources = c4wS1.resources + c4wP.baseResources)) :=
  claim_c4_register_inactive_read 1 c4wSem c4wS1 c4wSF c4wReader none c4wP
    (by rfl) (by decide) (by rfl) (by rfl)

/-! ## C5: register / unregister round trip -/

theorem find_append_last (l : List InactiveRead) (n : Nat) (r : Reader)
    (hne : ∀ x ∈ l, x.irId ≠ n) :
    (l ++ [(⟨n, r⟩ : InactiveRead)]).find? (fun ir => ir.irId == n) = some ⟨n, r⟩ := by
  induction l with
  | nil => simp [List.find?]
  | cons a t ih =>
    rw [List.cons_append, List.find?_cons_of_neg _ (by simp [hne a (List.mem_cons_self a t)])]
    exact ih fun x hx => hne x (List.mem_cons_of_mem a hx)

def c5P : PermitImpl :=
  { pid := 0, baseResources := ⟨1, 10⟩, baseResourcesConsumed := true,
    resources := ⟨1, 10⟩, state := PermitState.active_used, usedBranches := 1,
    markedAsUsed := true, blockedBranches := 0, markedAsBlocked := false,
    requestedMemory := 0, oomKills := 0 }

def c5Sem : Sem :=
  { semId := 0, initialResources := ⟨2, 100⟩, resources := ⟨1, 90⟩,
    serializeLimitMultiplier := 2, killLimitMultiplier := 4, maxQueueLength := 4,
    admissionQueue := [], memoryQueue := [], readyList := [], inactiveReads := [],
    nextIrId := 0, blessedPermit := none, evicting := false, permits := [c5P],
    closedReaders := [], stats := { zeroStats with usedPermits := 1 } }

def c5Reader : Reader := ⟨7, 0⟩

/-- Runs the round trip of the claim at a concrete state whose permit is
registered from active_used while holding a used branch, and checks that
the same reader comes back but the permit is active_used, not
active_unused. -/
def c5check : Bool :=
  match register_inactive_read 3 c5Sem c5Reader with
  | RRes.ok (some h) s1 =>
    match unregister_inactive_read 3 s1 (some h) with
    | RRes.ok (some r) s2 =>
      r == c5Reader
        && ((s2.findPermit 0).map PermitImpl.state == some PermitState.active_used)
        && !((s2.findPermit 0).map PermitImpl.state == some PermitState.active_unused)
    | _ => false
  | _ => false

/-- C5 counterexample: a reader whose permit holds a used branch is
registered (from active_used) and then unregistered; the same reader is
returned, but the permit returns to active_used, not active_unused as the
claim states. -/
theorem claim_c5_counterexample : c5check = true := by decide

/-- C5 amended: a register/unregister round trip without an intervening
eviction (the register call cached the reader, returning a valid handle)
returns the same reader, and the permit becomes active again according to
its branch counters: active_unused with no used branches, active_used
with used branches but no blocked branches, active_blocked with both. -/
theorem claim_c5_round_trip (fuel : Nat) (s s1 s2 : Sem) (reader : Reader) (p : PermitImpl)
    (h : IRHandle) (r : Option Reader)
    (hp : s.findPermit reader.pid = some p)
    (hnw : reader.pid ∉ waitPids s)
    (hids : ∀ ir ∈ s.inactiveReads, ir.irId ≠ s.nextIrId)
    (hreg : register_inactive_read fuel s reader = RRes.ok (some h) s1)
    (hunreg : unregister_inactive_read fuel s1 (some h) = RRes.ok r s2) :
    r = some reader ∧
    (s2.findPermit reader.pid).map PermitImpl.state
      = some (if p.usedBranches ≠ 0 then
          (if p.blockedBranches ≠ 0 then PermitState.active_blocked else PermitState.active_used)
        else PermitState.active_unused) := by
  unfold register_inactive_read register_inactive_readW at hreg
  cases hro : on_register_as_inactiveW (mawF fuel) s reader.pid with
  | halt =>
    rw [hro] at hreg
    cases hreg
  | oom t =>
    rw [hro] at hreg
    simp only [RRes.andThen] at hreg
    cases hreg
  | ok a s1' =>
    rw [hro] at hreg
    simp only [RRes.andThen] at hreg
    have hPS : PState reader.pid s
        { p with state := PermitState.inactive, markedAsUsed := false, markedAsBlocked := false } s1' :=
      RROn_elim_ok (ps_on_register_as_inactiveW (mawF fuel) (fr_mawF fuel) (mawF_no_oom fuel)
        s reader.pid p hp hnw) hro
    by_cases hcond : waitSize s1' = 0 ∧ 0 < s1'.resources.memory
    · rw [if_pos hcond] at hreg
      injection hreg with hh hs1
      injection hh with hh'
      subst hh'
      subst hs1
      unfold unregister_inactive_read unregister_inactive_readW at hunreg
      try dsimp only at hunreg
      rw [if_neg (show ¬ (s1'.semId ≠ s1'.semId) from fun hne => hne rfl)] at hunreg
      have hids' : ∀ x ∈ s1'.inactiveReads, x.irId ≠ s1'.nextIrId := by
        rw [hPS.2.inact, hPS.2.nir]
        exact hids
      rw [find_append_last s1'.inactiveReads s1'.nextIrId reader hids'] at hunreg
      try dsimp only at hunreg
      cases hu : on_unregister_as_inactiveW (mawF fuel)
          { s1' with
              inactiveReads := (s1'.inactiveReads ++ [(⟨s1'.nextIrId, reader⟩ : InactiveRead)]).filter
                (fun x => x.irId ≠ s1'.nextIrId),
              nextIrId := s1'.nextIrId + 1,
              stats := { s1'.stats with
                inactiveReads := s1'.stats.inactiveReads + 1 - 1 } } reader.pid with
      | halt =>
        rw [hu] at hunreg
        cases hunreg
      | oom t =>
        rw [hu] at hunreg
        simp only [RRes.andThen] at hunreg
        cases hunreg
      | ok b s2' =>
        rw [hu] at hunreg
        simp only [RRes.andThen] at hunreg
        injection hunreg with hr hs2
        subst hs2
        refine ⟨hr.symm, ?_⟩
        have hPS3 : PState reader.pid
            ({ s1' with
              inactiveReads := (s1'.inactiveReads ++ [(⟨s1'.nextIrId, reader⟩ : InactiveRead)]).filter
                (fun x => x.irId ≠ s1'.nextIrId),
              nextIrId := s1'.nextIrId + 1,
              stats := { s1'.stats with
                inactiveReads := s1'.stats.inactiveReads + 1 - 1 } })
            (activeResult { p with state := PermitState.inactive, markedAsUsed := false, markedAsBlocked := false }) s2' :=
          RROn_elim_ok (ps_on_unregister_as_inactiveW (mawF fuel) (fr_mawF fuel) (mawF_no_oom fuel)
            ({ s1' with
              inactiveReads := (s1'.inactiveReads ++ [(⟨s1'.nextIrId, reader⟩ : InactiveRead)]).filter
                (fun x => x.irId ≠ s1'.nextIrId),
              nextIrId := s1'.nextIrId + 1,
              stats := { s1'.stats with
                inactiveReads := s1'.stats.inactiveReads + 1 - 1 } })
            reader.pid _ hPS.1 (SFrame.not_mem_waitPids hPS.2 hnw)) hu
        rw [hPS3.1]
        rw [show Option.map PermitImpl.state (some (activeResult { p with state := PermitState.inactive, markedAsUsed := false, markedAsBlocked := false })) = some (activeResult { p with state := PermitState.inactive, markedAsUsed := false, markedAsBlocked := false }).state from rfl]
        unfold activeResult
        by_cases hu0 : p.usedBranches ≠ 0
        · rw [if_pos hu0, if_pos hu0]
          by_cases hb0 : p.blockedBranches ≠ 0
          · rw [if_pos hb0, if_pos hb0]
          · rw [if_neg hb0, if_neg hb0]
        · rw [if_neg hu0, if_neg hu0]
    · rw [if_neg hcond] at hreg
      cases hev : on_evictedW (mawF fuel) s1' reader.pid with
      | halt =>
        rw [hev] at hreg
        cases hreg
      | oom t =>
        rw [hev] at hreg
        simp only [RRes.andThen] at hreg
        cases hreg
      | ok b s2' =>
        rw [hev] at hreg
        simp only [RRes.andThen] at hreg
        injection hreg with hh
        cases hh

def c5s1 : Sem :=
  match register_inactive_read 3 c5Sem c5Reader with
  | RRes.ok _ t => t
  | _ => c5Sem

def c5h : IRHandle :=
  match register_inactive_read 3 c5Sem c5Reader with
  | RRes.ok (some hh) _ => hh
  | _ => ⟨0, 0⟩

def c5s2 : Sem :=
  match unregister_inactive_read 3 c5s1 (some c5h) with
  | RRes.ok _ t => t
  | _ => c5s1

def c5r : Option Reader :=
  match unregister_inactive_read 3 c5s1 (some c5h) with
  | RRes.ok rr _ => rr
  | _ => none

/-- Witness for the amended C5 theorem: the concrete round trip at c5Sem
returns the registered reader and restores the permit to active_used. -/
theorem claim_c5_round_trip_witness :
    c5r = some c5Reader ∧
    (c5s2.findPermit c5Reader.pid).map PermitImpl.state = some PermitState.active_used :=
  claim_c5_round_trip 3 c5Sem c5s1 c5s2 c5Reader c5P c5h c5r
    (by decide) (by decide) (by decide) (by decide) (by decide)
/-! ## C7: the semaphore-wide counter invariant used_permits >= blocked_permits -/

/-- The semaphore-wide counter invariant of the claim. -/
def UGB (s : Sem) : Prop := s.stats.blockedPermits ≤ s.stats.usedPermits

instance (s : Sem) : Decidable (UGB s) := Nat.decLe _ _

/-- The invariant holds in every state an operation surfaces: the state
of a normal return and the state carried by a thrown bad_alloc. -/
def UGBr {α : Type} : RRes α → Prop
  | .ok _ t => UGB t
  | .oom t => UGB t
  | .halt => True

theorem ugb_andThen {α β : Type} {r : RRes α} {f : α → Sem → RRes β}
    (h1 : UGBr r) (h2 : ∀ a t, UGB t → UGBr (f a t)) : UGBr (r.andThen f) := by
  cases r with
  | ok a t => exact h2 a t h1
  | oom t => exact h1
  | halt => trivial

theorem ugb_getp {α : Type} {s : Sem} {pid : Nat} {k : PermitImpl → RRes α}
    (h : ∀ p, UGBr (k p)) : UGBr (getp s pid k) := by
  unfold getp
  cases s.findPermit pid with
  | some p => exact h p
  | none => trivial

theorem ugb_popFront {s : Sem} (hs : UGB s) : UGB (popFront s) := by
  unfold popFront
  cases s.memoryQueue with
  | nil => exact hs
  | cons a t => exact hs

theorem ugb_evict_bg {s : Sem} (hs : UGB s) : UGB (evict_readers_in_background s) := by
  unfold evict_readers_in_background
  split
  · exact hs
  · exact hs

theorem ugb_sem_on_permit_used {s : Sem} (hs : UGB s) : UGB (sem_on_permit_used s) :=
  Nat.le_succ_of_le hs

theorem ugb_sem_on_permit_unusedW {adm : Adm} (Hadm : ∀ u, UGB u → UGBr (adm u)) (s : Sem) :
    UGBr (sem_on_permit_unusedW adm s) := by
  unfold sem_on_permit_unusedW
  split
  · trivial
  · try dsimp only
    split
    · trivial
    · rename_i h2
      exact Hadm _ (Nat.le_of_not_lt h2)

theorem ugb_sem_on_permit_blockedW {adm : Adm} (Hadm : ∀ u, UGB u → UGBr (adm u)) (s : Sem) :
    UGBr (sem_on_permit_blockedW adm s) := by
  unfold sem_on_permit_blockedW
  try dsimp only
  split
  · trivial
  · rename_i h2
    exact Hadm _ (Nat.le_of_not_lt h2)

theorem ugb_sem_on_permit_unblocked {s : Sem} (hs : UGB s) :
    UGBr (sem_on_permit_unblocked s) := by
  unfold sem_on_permit_unblocked
  split
  · trivial
  · exact Nat.le_trans (Nat.sub_le _ _) hs

theorem ugb_impl_on_permit_used {s : Sem} {pid : Nat} (hs : UGB s) :
    UGBr (impl_on_permit_used s pid) := by
  unfold impl_on_permit_used
  exact ugb_getp fun p => Nat.le_succ_of_le hs

theorem ugb_impl_on_permit_unusedW {adm : Adm} (Hadm : ∀ u, UGB u → UGBr (adm u))
    (s : Sem) (pid : Nat) : UGBr (impl_on_permit_unusedW adm s pid) := by
  unfold impl_on_permit_unusedW
  exact ugb_andThen (ugb_sem_on_permit_unusedW Hadm s) fun a t ht => ugb_getp fun p => ht

theorem ugb_impl_on_permit_blockedW {adm : Adm} (Hadm : ∀ u, UGB u → UGBr (adm u))
    (s : Sem) (pid : Nat) : UGBr (impl_on_permit_blockedW adm s pid) := by
  unfold impl_on_permit_blockedW
  exact ugb_andThen (ugb_sem_on_permit_blockedW Hadm s) fun a t ht => ugb_getp fun p => ht

theorem ugb_impl_on_permit_unblocked {s : Sem} {pid : Nat} (hs : UGB s) :
    UGBr (impl_on_permit_unblocked s pid) := by
  unfold impl_on_permit_unblocked
  exact ugb_andThen (ugb_sem_on_permit_unblocked hs) fun a t ht => ugb_getp fun p => ht

theorem ugb_on_permit_activeW {adm : Adm} (Hadm : ∀ u, UGB u → UGBr (adm u))
    {s : Sem} {pid : Nat} (hs : UGB s) : UGBr (on_permit_activeW adm s pid) := by
  unfold on_permit_activeW
  refine ugb_getp fun p => ?_
  split
  · refine ugb_andThen (ugb_impl_on_permit_used hs) fun a t ht => ?_
    refine ugb_getp fun p2 => ?_
    split
    · exact ugb_impl_on_permit_blockedW Hadm _ _
    · exact ht
  · exact hs

theorem ugb_on_permit_inactiveW {adm : Adm} (Hadm : ∀ u, UGB u → UGBr (adm u))
    {s : Sem} {pid : Nat} {st : PermitState} (hs : UGB s) :
    UGBr (on_permit_inactiveW adm s pid st) := by
  unfold on_permit_inactiveW
  refine ugb_getp fun p => ?_
  refine ugb_andThen ?_ fun a t ht => ?_
  · split
    · exact ugb_impl_on_permit_unblocked hs
    · exact hs
  · refine ugb_getp fun p2 => ?_
    split
    · exact ugb_impl_on_permit_unusedW Hadm _ _
    · exact ht

theorem ugb_consume {s : Sem} {pid : Nat} {r : Resources} (hs : UGB s) :
    UGBr (consume s pid r) := by
  unfold consume
  split
  · refine ugb_getp fun p => ?_
    try dsimp only
    split
    · exact hs
    · exact hs
  · exact hs

theorem ugb_impl_consume {s : Sem} {pid : Nat} {r : Resources} (hs : UGB s) :
    UGBr (impl_consume s pid r) := by
  unfold impl_consume
  exact ugb_andThen (ugb_consume hs) fun a t ht => ugb_getp fun p => ht

theorem ugb_signalW {adm : Adm} (Hadm : ∀ u, UGB u → UGBr (adm u)) {s : Sem} {r : Resources}
    (hs : UGB s) : UGBr (signalW adm s r) :=
  Hadm _ hs

theorem ugb_impl_signalW {adm : Adm} (Hadm : ∀ u, UGB u → UGBr (adm u)) {s : Sem} {pid : Nat}
    {r : Resources} (hs : UGB s) : UGBr (impl_signalW adm s pid r) := by
  unfold impl_signalW
  exact ugb_getp fun p => ugb_signalW Hadm hs

theorem ugb_on_admissionW {adm : Adm} (Hadm : ∀ u, UGB u → UGBr (adm u)) {s : Sem} {pid : Nat}
    (hs : UGB s) : UGBr (on_admissionW adm s pid) := by
  unfold on_admissionW
  refine ugb_getp fun p => ?_
  split
  · trivial
  · refine ugb_andThen (ugb_on_permit_activeW Hadm hs) fun a t ht => ?_
    refine ugb_getp fun p1 => ?_
    refine ugb_andThen (ugb_impl_consume ht) fun b u hu => ?_
    exact ugb_getp fun p2 => hu

theorem ugb_on_granted_memoryW {adm : Adm} (Hadm : ∀ u, UGB u → UGBr (adm u)) {s : Sem}
    {pid : Nat} (hs : UGB s) : UGBr (on_granted_memoryW adm s pid) := by
  unfold on_granted_memoryW
  refine ugb_getp fun p => ?_
  refine ugb_andThen ?_ fun a t ht => ?_
  · split
    · exact ugb_on_permit_activeW Hadm hs
    · exact hs
  · exact ugb_getp fun p1 => ugb_impl_consume ht

theorem ugb_on_waiting_for_admissionW {adm : Adm} (Hadm : ∀ u, UGB u → UGBr (adm u)) {s : Sem}
    {pid : Nat} (hs : UGB s) : UGBr (on_waiting_for_admissionW adm s pid) :=
  ugb_on_permit_inactiveW Hadm hs

theorem ugb_on_waiting_for_memoryW {adm : Adm} (Hadm : ∀ u, UGB u → UGBr (adm u)) {s : Sem}
    {pid : Nat} (hs : UGB s) : UGBr (on_waiting_for_memoryW adm s pid) :=
  ugb_on_permit_inactiveW Hadm hs

theorem ugb_on_register_as_inactiveW {adm : Adm} (Hadm : ∀ u, UGB u → UGBr (adm u)) {s : Sem}
    {pid : Nat} (hs : UGB s) : UGBr (on_register_as_inactiveW adm s pid) := by
  unfold on_register_as_inactiveW
  refine ugb_getp fun p => ?_
  split
  · exact ugb_on_permit_inactiveW Hadm hs
  · trivial

theorem ugb_on_unregister_as_inactiveW {adm : Adm} (Hadm : ∀ u, UGB u → UGBr (adm u)) {s : Sem}
    {pid : Nat} (hs : UGB s) : UGBr (on_unregister_as_inactiveW adm s pid) := by
  unfold on_unregister_as_inactiveW
  refine ugb_getp fun p => ?_
  split
  · exact ugb_on_permit_activeW Hadm hs
  · trivial

theorem ugb_on_evictedW {adm : Adm} (Hadm : ∀ u, UGB u → UGBr (adm u)) {s : Sem} {pid : Nat}
    (hs : UGB s) : UGBr (on_evictedW adm s pid) := by
  unfold on_evictedW
  refine ugb_getp fun p => ?_
  split
  · try dsimp only
    split
    · refine ugb_andThen (ugb_impl_signalW Hadm hs) fun a t ht => ?_
      exact ugb_getp fun p2 => ht
    · exact hs
  · trivial

theorem ugb_enqueue_waiterW {adm : Adm} (Hadm : ∀ u, UGB u → UGBr (adm u)) {s : Sem}
    {pid : Nat} {hasFunc : Bool} {w : WaitOn} (hs : UGB s) :
    UGBr (enqueue_waiterW adm s pid hasFunc w) := by
  unfold enqueue_waiterW check_queue_size
  by_cases hq : s.maxQueueLength ≤ waitSize s + s.readyList.length
  · rw [if_pos hq]
    exact hs
  · rw [if_neg hq]
    cases w with
    | admission =>
      exact ugb_andThen (ugb_on_waiting_for_admissionW Hadm hs) fun a t ht => ht
    | memory =>
      exact ugb_andThen (ugb_on_waiting_for_memoryW Hadm hs) fun a t ht => ht

theorem ugb_mawF (fuel : Nat) : ∀ (s : Sem), UGB s → UGBr (mawF fuel s) := by
  induction fuel with
  | zero =>
    intro s hs
    unfold mawF
    cases hw : waitFront s with
    | none => exact hs
    | some e => trivial
  | succ m ih =>
    intro s hs
    unfold mawF
    cases hw : waitFront s with
    | none => exact hs
    | some e =>
      try dsimp only
      refine ugb_getp fun p => ?_
      cases can_admit_read s p with
      | maybe => exact ugb_evict_bg hs
      | no => exact hs
      | yes =>
        try dsimp only
        by_cases hwm : p.state = PermitState.waiting_for_memory
        · rw [if_pos hwm]
          cases hst : on_granted_memoryW (mawF m) { s with blessedPermit := some e.pid } e.pid with
          | halt => trivial
          | oom t =>
            have h : UGBr (on_granted_memoryW (mawF m) { s with blessedPermit := some e.pid } e.pid) :=
              ugb_on_granted_memoryW ih (show UGB { s with blessedPermit := some e.pid } from hs)
            rw [hst] at h
            exact ih _ (ugb_popFront h)
          | ok a t =>
            have h : UGBr (on_granted_memoryW (mawF m) { s with blessedPermit := some e.pid } e.pid) :=
              ugb_on_granted_memoryW ih (show UGB { s with blessedPermit := some e.pid } from hs)
            rw [hst] at h
            have ht1 : UGB (if e.hasFunc then pushReady t e else t) := by
              split
              · exact h
              · exact h
            exact ih _ (ugb_popFront ht1)
        · rw [if_neg hwm]
          cases hst : (on_admissionW (mawF m) s e.pid).andThen
              (fun _ t => RRes.ok ()
                { t with stats := { t.stats with readsAdmitted := t.stats.readsAdmitted + 1 } }) with
          | halt => trivial
          | oom t =>
            have h : UGBr ((on_admissionW (mawF m) s e.pid).andThen
                (fun _ t => RRes.ok ()
                  { t with stats := { t.stats with readsAdmitted := t.stats.readsAdmitted + 1 } })) :=
              ugb_andThen (ugb_on_admissionW ih hs) (fun a t ht => ht)
            rw [hst] at h
            exact ih _ (ugb_popFront h)
          | ok a t =>
            have h : UGBr ((on_admissionW (mawF m) s e.pid).andThen
                (fun _ t => RRes.ok ()
                  { t with stats := { t.stats with readsAdmitted := t.stats.readsAdmitted + 1 } })) :=
              ugb_andThen (ugb_on_admissionW ih hs) (fun a t ht => ht)
            rw [hst] at h
            have ht1 : UGB (if e.hasFunc then pushReady t e else t) := by
              split
              · exact h
              · exact h
            exact ih _ (ugb_popFront ht1)

theorem ugb_mark_usedW {adm : Adm} (Hadm : ∀ u, UGB u → UGBr (adm u)) {s : Sem} {pid : Nat}
    (hs : UGB s) : UGBr (mark_usedW adm s pid) := by
  unfold mark_usedW
  refine ugb_getp fun p => ?_
  try dsimp only
  split
  · refine ugb_andThen (ugb_impl_on_permit_used hs) fun a t ht => ?_
    refine ugb_getp fun p2 => ?_
    split
    · exact ugb_impl_on_permit_blockedW Hadm _ _
    · exact ht
  · exact hs

theorem ugb_mark_unusedW {adm : Adm} (Hadm : ∀ u, UGB u → UGBr (adm u)) {s : Sem} {pid : Nat}
    (hs : UGB s) : UGBr (mark_unusedW adm s pid) := by
  unfold mark_unusedW
  refine ugb_getp fun p => ?_
  split
  · trivial
  · try dsimp only
    split
    · refine ugb_andThen ?_ fun a t ht => ?_
      · split
        · exact ugb_impl_on_permit_unblocked hs
        · exact hs
      · exact ugb_getp fun p2 => ugb_impl_on_permit_unusedW Hadm _ _
    · exact hs

theorem ugb_mark_blockedW {adm : Adm} (Hadm : ∀ u, UGB u → UGBr (adm u)) {s : Sem} {pid : Nat}
    (hs : UGB s) : UGBr (mark_blockedW adm s pid) := by
  unfold mark_blockedW
  refine ugb_getp fun p => ?_
  try dsimp only
  split
  · exact ugb_impl_on_permit_blockedW Hadm _ _
  · exact hs

theorem ugb_mark_unblocked {s : Sem} {pid : Nat} (hs : UGB s) : UGBr (mark_unblocked s pid) := by
  unfold mark_unblocked
  refine ugb_getp fun p => ?_
  split
  · trivial
  · try dsimp only
    split
    · exact ugb_impl_on_permit_unblocked hs
    · exact hs

theorem ugb_try_evict_one_inactive_readW {adm : Adm} (Hadm : ∀ u, UGB u → UGBr (adm u))
    {s : Sem} {reason : EvictReason} (hs : UGB s) :
    UGBr (try_evict_one_inactive_readW adm s reason) := by
  unfold try_evict_one_inactive_readW
  cases s.inactiveReads with
  | nil => exact hs
  | cons ir rest =>
    refine ugb_andThen (ugb_on_evictedW Hadm hs) fun a t ht => ?_
    cases reason <;> exact ht

theorem ugb_on_permit_destroyedW {adm : Adm} (Hadm : ∀ u, UGB u → UGBr (adm u)) {s : Sem}
    {pid : Nat} (hs : UGB s) : UGBr (on_permit_destroyedW adm s pid) := by
  unfold on_permit_destroyedW
  try dsimp only
  split
  · exact Hadm _ hs
  · exact hs

theorem ugb_permit_destroyW {adm : Adm} (Hadm : ∀ u, UGB u → UGBr (adm u)) {s : Sem}
    {pid : Nat} (hs : UGB s) : UGBr (permit_destroyW adm s pid) := by
  unfold permit_destroyW
  refine ugb_getp fun p => ?_
  refine ugb_andThen ?_ fun a s1 h1 => ?_
  · split
    · exact ugb_impl_signalW Hadm hs
    · exact hs
  · refine ugb_getp fun p1 => ?_
    refine ugb_andThen ?_ fun b s2 h2 => ?_
    · split
      · exact ugb_impl_signalW Hadm h1
      · exact h1
    · refine ugb_getp fun p2 => ?_
      refine ugb_andThen ?_ fun c s3 h3 => ?_
      · split
        · exact ugb_sem_on_permit_unusedW Hadm _
        · exact h2
      · refine ugb_getp fun p3 => ?_
        refine ugb_andThen ?_ fun d s4 h4 => ?_
        · split
          · exact ugb_sem_on_permit_unblocked h3
          · exact h3
        · exact ugb_on_permit_destroyedW Hadm h4

/-- C7: the semaphore-wide invariant used_permits ≥ blocked_permits is
preserved by every operation that changes either counter — the four mark
transitions (mark_used, mark_unused, mark_blocked, mark_unblocked),
admission, eviction and permit destruction, including destruction with
orphaned used or blocked branches, where the counters are force-repaired —
in every state the operation surfaces, whether it returns normally or
throws bad_alloc; the asserts in on_permit_unused and on_permit_blocked
enforce the inequality at the points where it could be violated. -/
theorem claim_c7_used_ge_blocked (fuel : Nat) (s : Sem) (op : SemOp) (hs : UGB s) :
    UGBr (semStep fuel s op) := by
  have Hadm : ∀ u, UGB u → UGBr (mawF fuel u) := ugb_mawF fuel
  cases op with
  | opMarkUsed pid => exact ugb_mark_usedW Hadm hs
  | opMarkUnused pid => exact ugb_mark_unusedW Hadm hs
  | opMarkBlocked pid => exact ugb_mark_blockedW Hadm hs
  | opMarkUnblocked pid => exact ugb_mark_unblocked hs
  | opAdmission pid => exact ugb_on_admissionW Hadm hs
  | opEviction reason =>
    exact ugb_andThen (ugb_try_evict_one_inactive_readW Hadm hs) fun a t ht => ht
  | opDestroy pid => exact ugb_permit_destroyW Hadm hs

def c7P : PermitImpl :=
  { pid := 0, baseResources := ⟨1, 10⟩, baseResourcesConsumed := true,
    resources := ⟨1, 10⟩, state := PermitState.active_used, usedBranches := 1,
    markedAsUsed := true, blockedBranches := 0, markedAsBlocked := false,
    requestedMemory := 0, oomKills := 0 }

def c7Sem : Sem :=
  { semId := 0, initialResources := ⟨2, 100⟩, resources := ⟨1, 90⟩,
    serializeLimitMultiplier := 2, killLimitMultiplier := 4, maxQueueLength := 4,
    admissionQueue := [], memoryQueue := [], readyList := [], inactiveReads := [],
    nextIrId := 0, blessedPermit := none, evicting := false, permits := [c7P],
    closedReaders := [], stats := { zeroStats with usedPermits := 1 } }

/-- Witness for C7: at a concrete state satisfying the invariant, running
a mark_unused step preserves it. -/
theorem claim_c7_witness :
    UGB c7Sem ∧ UGBr (semStep 3 c7Sem (SemOp.opMarkUnused 0)) :=
  ⟨by decide, claim_c7_used_ge_blocked 3 c7Sem (SemOp.opMarkUnused 0) (by decide)⟩
